import Mathlib

/-!
Verification of the telemetry normalization and merge engine of the
`observability` repository.

The embedding covers:
* `src/src/scripts/xml2json_deduplicated.py` — value coercion
  (`convert_value`), ISO timestamp parsing (`parse_iso`), per-document
  deduplication (`deduplicate_data_items`), component transformation
  (`transform_components_deduplicated`) and the XML-to-JSON conversion
  skeleton (`convert_xml_to_json_deduplicated`);
* `src/src/scripts/merge_machine_data.py` — the per-category merge policy
  (`merge_samples`, `merge_events`, `merge_conditions`, `merge_components`,
  `merge_machine_data`);
* `src/load_data_efficient.py` — the control flow of `main` around the
  trigger-suspension statements.

Python's dynamically-typed values are embedded as the inductive type
`PyObj`; Python dicts are insertion-ordered association lists with unique
keys, and the dict primitives below implement the CPython semantics the
scripts rely on (get with default, membership, in-place update keeping the
key position, deletion).
-/

/-- Model of a Python value as they occur in this pipeline: `None`, `int`,
`float` (embedded as `ℚ`; the scripts only produce floats from decimal
literals), `str`, `datetime` (embedded as microseconds on a linear time
scale, see `parse_iso`), `dict` (insertion-ordered entry list) and `list`. -/
inductive PyObj : Type where
  | vnone : PyObj
  | vint : ℤ → PyObj
  | vfloat : ℚ → PyObj
  | vstr : String → PyObj
  | vdt : ℤ → PyObj
  | vdict : List (PyObj × PyObj) → PyObj
  | vlist : List PyObj → PyObj

mutual

/-- Python `==` on the embedded values: structural, except that an `int`
and a `float` compare equal when they denote the same number (CPython
numeric cross-type equality). -/
def PyObj.beq : PyObj → PyObj → Bool
  | .vnone, .vnone => true
  | .vint a, .vint b => a = b
  | .vfloat a, .vfloat b => a = b
  | .vint a, .vfloat b => (a : ℚ) = b
  | .vfloat a, .vint b => a = (b : ℚ)
  | .vstr a, .vstr b => a = b
  | .vdt a, .vdt b => a = b
  | .vdict a, .vdict b => PyObj.beqEntries a b
  | .vlist a, .vlist b => PyObj.beqList a b
  | _, _ => false

/-- Entrywise `==` on dict entry lists. -/
def PyObj.beqEntries : List (PyObj × PyObj) → List (PyObj × PyObj) → Bool
  | [], [] => true
  | (k, v) :: r, (k', v') :: r' => PyObj.beq k k' && PyObj.beq v v' && PyObj.beqEntries r r'
  | _, _ => false

/-- Elementwise `==` on lists of values. -/
def PyObj.beqList : List PyObj → List PyObj → Bool
  | [], [] => true
  | a :: r, b :: r' => PyObj.beq a b && PyObj.beqList r r'
  | _, _ => false

end

mutual

/-- Mirror of `PyObj` with its own list constructors, used only to derive
decidable equality for `PyObj`. -/
inductive MObj : Type where
  | vnone : MObj
  | vint : ℤ → MObj
  | vfloat : ℚ → MObj
  | vstr : String → MObj
  | vdt : ℤ → MObj
  | vdict : MEntries → MObj
  | vlist : MList → MObj
  deriving DecidableEq

/-- Mirror of a dict entry list. -/
inductive MEntries : Type where
  | nil : MEntries
  | cons : MObj → MObj → MEntries → MEntries
  deriving DecidableEq

/-- Mirror of a value list. -/
inductive MList : Type where
  | nil : MList
  | cons : MObj → MList → MList
  deriving DecidableEq

end

mutual

/-- Encode a `PyObj` into its mirror. -/
def toM : PyObj → MObj
  | .vnone => .vnone
  | .vint n => .vint n
  | .vfloat q => .vfloat q
  | .vstr s => .vstr s
  | .vdt t => .vdt t
  | .vdict d => .vdict (toME d)
  | .vlist l => .vlist (toML l)

/-- Encode dict entries into the mirror. -/
def toME : List (PyObj × PyObj) → MEntries
  | [] => .nil
  | (k, v) :: r => .cons (toM k) (toM v) (toME r)

/-- Encode a value list into the mirror. -/
def toML : List PyObj → MList
  | [] => .nil
  | x :: r => .cons (toM x) (toML r)

end

mutual

/-- Decode a mirror value. -/
def ofM : MObj → PyObj
  | .vnone => .vnone
  | .vint n => .vint n
  | .vfloat q => .vfloat q
  | .vstr s => .vstr s
  | .vdt t => .vdt t
  | .vdict d => .vdict (ofME d)
  | .vlist l => .vlist (ofML l)

/-- Decode mirrored dict entries. -/
def ofME : MEntries → List (PyObj × PyObj)
  | .nil => []
  | .cons k v r => (ofM k, ofM v) :: ofME r

/-- Decode a mirrored value list. -/
def ofML : MList → List PyObj
  | .nil => []
  | .cons x r => ofM x :: ofML r

end

mutual

/-- Decoding inverts encoding on values. -/
theorem ofM_toM : ∀ a : PyObj, ofM (toM a) = a
  | .vnone => rfl
  | .vint _ => rfl
  | .vfloat _ => rfl
  | .vstr _ => rfl
  | .vdt _ => rfl
  | .vdict d => by rw [toM, ofM, ofM_toME d]
  | .vlist l => by rw [toM, ofM, ofM_toML l]

/-- Decoding inverts encoding on dict entries. -/
theorem ofM_toME : ∀ d : List (PyObj × PyObj), ofME (toME d) = d
  | [] => rfl
  | (k, v) :: r => by rw [toME, ofME, ofM_toM k, ofM_toM v, ofM_toME r]

/-- Decoding inverts encoding on value lists. -/
theorem ofM_toML : ∀ l : List PyObj, ofML (toML l) = l
  | [] => rfl
  | x :: r => by rw [toML, ofML, ofM_toM x, ofM_toML r]

end

instance : DecidableEq PyObj := fun a b =>
  decidable_of_iff (toM a = toM b)
    ⟨fun h => by rw [← ofM_toM a, ← ofM_toM b, h], fun h => by rw [h]⟩

/-- Python truthiness of an embedded value (`bool(x)`). -/
def PyObj.truthy : PyObj → Bool
  | .vnone => false
  | .vint n => n ≠ 0
  | .vfloat q => q ≠ 0
  | .vstr s => s ≠ ""
  | .vdt _ => true
  | .vdict d => !d.isEmpty
  | .vlist l => !l.isEmpty

/-- Python `d.get(k)`: the value stored at the first (only) entry whose key
compares `==` to `k`. -/
def dictGet? (d : List (PyObj × PyObj)) (k : PyObj) : Option PyObj :=
  match d with
  | [] => none
  | (k', v) :: r => if PyObj.beq k' k then some v else dictGet? r k

/-- Python `d.get(k, dflt)`. -/
def dictGetD (d : List (PyObj × PyObj)) (k dflt : PyObj) : PyObj :=
  (dictGet? d k).getD dflt

/-- Python `k in d`. -/
def dictMem (d : List (PyObj × PyObj)) (k : PyObj) : Bool :=
  (dictGet? d k).isSome

/-- Python `d[k] = v`: update the existing entry in place (keeping its
position) or append a new entry at the end. -/
def dictSet (d : List (PyObj × PyObj)) (k v : PyObj) : List (PyObj × PyObj) :=
  match d with
  | [] => [(k, v)]
  | (k', v') :: r =>
    if PyObj.beq k' k then (k', v) :: r else (k', v') :: dictSet r k v

/-- Python `del d[k]` (dict keys are unique, so removing the first matching
entry is the CPython behaviour); deleting an absent key is only performed
guarded in the source, so a missing key simply leaves the dict unchanged. -/
def dictDel (d : List (PyObj × PyObj)) (k : PyObj) : List (PyObj × PyObj) :=
  match d with
  | [] => []
  | (k', v') :: r => if PyObj.beq k' k then r else (k', v') :: dictDel r k

/-- View an embedded value as dict entries; every call site in the scripts
only reaches this on values that are dicts (the `@attributes` maps built by
the converter), so non-dicts map to the empty entry list. -/
def PyObj.asDict : PyObj → List (PyObj × PyObj)
  | .vdict d => d
  | _ => []

/-- Numeric value of a decimal digit character, if it is one. -/
def digit? (c : Char) : Option ℕ :=
  if c.isDigit then some (c.toNat - 48) else none

/-- Consume a maximal run of decimal digits, returning the accumulated
value, the number of digits consumed and the remaining characters. -/
def takeDigits : List Char → ℕ → ℕ → ℕ × ℕ × List Char
  | [], acc, k => (acc, k, [])
  | c :: cs, acc, k =>
    match digit? c with
    | some d => takeDigits cs (10 * acc + d) (k + 1)
    | none => (acc, k, c :: cs)

/-- Consume an optional leading sign; returns whether the value is negated
and the remaining characters. -/
def parseSign : List Char → Bool × List Char
  | '-' :: cs => (true, cs)
  | '+' :: cs => (false, cs)
  | cs => (false, cs)

/-- Parse an optional exponent suffix (`e`/`E`, optional sign, at least one
digit, nothing after it); an empty remainder means exponent `0`. -/
def parseExp : List Char → Option ℤ
  | [] => some 0
  | 'e' :: cs =>
    let (neg, cs1) := parseSign cs
    match takeDigits cs1 0 0 with
    | (v, k, []) => if k = 0 then none else some (if neg then -(v : ℤ) else (v : ℤ))
    | _ => none
  | 'E' :: cs =>
    let (neg, cs1) := parseSign cs
    match takeDigits cs1 0 0 with
    | (v, k, []) => if k = 0 then none else some (if neg then -(v : ℤ) else (v : ℤ))
    | _ => none
  | _ => none

/-- The rational denoted by a decimal literal with sign `neg`, magnitude
`num / den` and decimal exponent `e`. -/
def decimalRat (neg : Bool) (num den : ℕ) (e : ℤ) : ℚ :=
  let q := if 0 ≤ e then mkRat ((num * 10 ^ e.toNat : ℕ) : ℤ) den
           else mkRat (num : ℤ) (den * 10 ^ (-e).toNat)
  if neg then -q else q

/-- Model of Python `float(s)` on its ordinary decimal-literal inputs:
optional sign, digits with an optional fractional part (at least one digit
overall), optional exponent.  The exotic spellings `float` also accepts
(`inf`, `nan`, underscores, surrounding whitespace) do not occur in this
pipeline's data and are modelled as parse failures. -/
def parseNumber? (s : String) : Option ℚ :=
  let (neg, cs) := parseSign s.data
  let (ip, ic, cs1) := takeDigits cs 0 0
  match cs1 with
  | '.' :: cs2 =>
    let (fp, fc, cs3) := takeDigits cs2 0 0
    if ic + fc = 0 then none
    else (parseExp cs3).map (fun e => decimalRat neg (ip * 10 ^ fc + fp) (10 ^ fc) e)
  | rest =>
    if ic = 0 then none
    else (parseExp rest).map (fun e => decimalRat neg ip 1 e)

/-- `convert_value` (xml2json_deduplicated.py, lines 195-209): the sentinel
`'UNAVAILABLE'`, `None` and the empty string become `None`; otherwise a
value that `float(...)` accepts becomes an `int` when integral and a
`float` otherwise; everything else is returned unchanged (`float` raises
`ValueError`/`TypeError` there, which the source catches). -/
def convert_value : PyObj → PyObj
  | .vstr s =>
    if s = "UNAVAILABLE" then .vnone
    else if s = "" then .vnone
    else
      match parseNumber? s with
      | some q => if q.den = 1 then .vint q.num else .vfloat q
      | none => .vstr s
  | .vnone => .vnone
  | .vint n => .vint n
  | .vfloat q => if q.den = 1 then .vint q.num else .vfloat q
  | v => v

/-- Leap-year test of the proleptic Gregorian calendar used by
`datetime`. -/
def isLeap (y : ℕ) : Bool :=
  y % 4 = 0 && (y % 100 ≠ 0 || y % 400 = 0)

/-- Number of days in month `m` of year `y`. -/
def daysInMonth (y m : ℕ) : ℕ :=
  if m = 2 then (if isLeap y then 29 else 28)
  else if m = 4 ∨ m = 6 ∨ m = 9 ∨ m = 11 then 30
  else 31

/-- Days in year `y` before the first day of month `m`. -/
def daysBeforeMonth (y m : ℕ) : ℕ :=
  (List.range (m - 1)).foldl (fun a i => a + daysInMonth y (i + 1)) 0

/-- Proleptic Gregorian ordinal of a date, as in `datetime.toordinal`
(day 1 is January 1 of year 1). -/
def dateOrdinal (y m d : ℕ) : ℕ :=
  365 * (y - 1) + ((y - 1) / 4 - (y - 1) / 100) + (y - 1) / 400 + daysBeforeMonth y m + d

/-- Exactly `n` decimal digits, accumulated into a number. -/
def fixedDigitsAux : ℕ → ℕ → List Char → Option (ℕ × List Char)
  | 0, acc, cs => some (acc, cs)
  | n + 1, acc, c :: cs =>
    match digit? c with
    | some d => fixedDigitsAux n (10 * acc + d) cs
    | none => none
  | _ + 1, _, [] => none

/-- Read exactly `n` decimal digits from the front of `cs`. -/
def fixedDigits (n : ℕ) (cs : List Char) : Option (ℕ × List Char) :=
  fixedDigitsAux n 0 cs

/-- Require character `c` at the front. -/
def expectChar (c : Char) : List Char → Option (List Char)
  | c' :: cs => if c' = c then some cs else none
  | [] => none

/-- Model of `datetime.fromisoformat` on the timestamp shapes this
pipeline produces (`YYYY-MM-DD*HH:MM:SS[.f+][±HH:MM]`, `*` being `T` or a
space): field ranges are validated as `datetime` does, fractional digits
beyond microseconds are truncated, and the result is the instant on a
single linear scale of microseconds since the day before January 1 of year
1, shifted by the UTC offset when one is present (naive timestamps sit on
the same scale with offset zero; the scripts never compare naive with
aware ones, which CPython would refuse to order). -/
def fromisoformat : List Char → Option ℤ := fun cs => do
  let (y, cs) ← fixedDigits 4 cs
  let cs ← expectChar '-' cs
  let (mo, cs) ← fixedDigits 2 cs
  let cs ← expectChar '-' cs
  let (d, cs) ← fixedDigits 2 cs
  let (h, mi, sec, micro, cs) ←
    match cs with
    | [] => some (0, 0, 0, 0, ([] : List Char))
    | sep :: cs => do
      if sep = 'T' ∨ sep = ' ' then
        let (h, cs) ← fixedDigits 2 cs
        let cs ← expectChar ':' cs
        let (mi, cs) ← fixedDigits 2 cs
        let cs ← expectChar ':' cs
        let (sec, cs) ← fixedDigits 2 cs
        match cs with
        | '.' :: cs1 =>
          let (fv, fc, cs2) := takeDigits cs1 0 0
          if fc = 0 then none
          else
            let micro := if fc ≤ 6 then fv * 10 ^ (6 - fc) else fv / 10 ^ (fc - 6)
            some (h, mi, sec, micro, cs2)
        | _ => some (h, mi, sec, 0, cs)
      else none
  let (offμs, cs) ←
    match cs with
    | [] => some ((0 : ℤ), ([] : List Char))
    | sgn :: cs => do
      if sgn = '+' ∨ sgn = '-' then
        let (th, cs) ← fixedDigits 2 cs
        let cs ← expectChar ':' cs
        let (tm, cs) ← fixedDigits 2 cs
        if th ≤ 23 ∧ tm ≤ 59 then
          let off : ℤ := ((th * 3600 + tm * 60) * 1000000 : ℕ)
          some (if sgn = '-' then -off else off, cs)
        else none
      else none
  if cs = [] ∧ 1 ≤ y ∧ 1 ≤ mo ∧ mo ≤ 12 ∧ 1 ≤ d ∧ d ≤ daysInMonth y mo ∧
      h ≤ 23 ∧ mi ≤ 59 ∧ sec ≤ 59 then
    some (((dateOrdinal y mo d * 86400 + h * 3600 + mi * 60 + sec) * 1000000 + micro : ℕ) - offμs)
  else none

/-- `parse_iso` (xml2json_deduplicated.py, lines 183-193): every `Z` is
replaced by `+00:00`; when a `.` is present the text between the first `.`
and the first `+` is zero-padded on the right to at least six digits and
only the first `+`-segment of the suffix is kept; the rewritten string is
then handed to `datetime.fromisoformat`. -/
def parse_iso (ts : String) : Option ℤ :=
  let cs := ts.data.flatMap (fun c => if c = 'Z' then ['+', '0', '0', ':', '0', '0'] else [c])
  let cs2 :=
    if cs.contains '.' then
      let date_part := cs.takeWhile (fun c => c ≠ '.')
      let rest := (cs.dropWhile (fun c => c ≠ '.')).drop 1
      let micro := rest.takeWhile (fun c => c ≠ '+')
      let tz0 := ((rest.dropWhile (fun c => c ≠ '+')).drop 1).takeWhile (fun c => c ≠ '+')
      let micro2 := if micro.length < 6 then micro ++ List.replicate (6 - micro.length) '0' else micro
      date_part ++ '.' :: micro2 ++ (if rest.contains '+' then '+' :: tz0 else [])
    else cs
  fromisoformat cs2

/-- Validation step of the grouping loop in `deduplicate_data_items`
(xml2json_deduplicated.py, lines 241-258): a non-dict item is skipped, a
falsy `dataItemId` is skipped, a falsy `timestamp` attribute is skipped,
and an unparseable timestamp is skipped (`ValueError` caught); otherwise
the item — with `_parsed_timestamp` stored into it — is grouped under its
`dataItemId`.  (A truthy non-string timestamp would raise in the source;
the converter only ever puts strings there, and the model skips it.) -/
def itemEntry (item : PyObj) : Option (PyObj × PyObj) :=
  match item with
  | .vdict d =>
    let attrs := (dictGetD d (.vstr "@attributes") (.vdict [])).asDict
    let dii := dictGetD attrs (.vstr "dataItemId") .vnone
    if dii.truthy then
      match dictGetD attrs (.vstr "timestamp") .vnone with
      | .vstr s =>
        if s ≠ "" then
          match parse_iso s with
          | some t => some (dii, .vdict (dictSet d (.vstr "_parsed_timestamp") (.vdt t)))
          | none => none
        else none
      | _ => none
    else none
  | _ => none

/-- `defaultdict(list)` accumulation: append `it` to the group of key `k`,
creating the group at the end on first sight (insertion order). -/
def groupInsert : List (PyObj × List PyObj) → PyObj → PyObj → List (PyObj × List PyObj)
  | [], k, it => [(k, [it])]
  | (k', l) :: r, k, it =>
    if PyObj.beq k' k then (k', l ++ [it]) :: r else (k', l) :: groupInsert r k it

/-- Sort key of the `max(...)` call: `x.get('_parsed_timestamp',
datetime.min)`; every grouped item carries the field, and `datetime.min`
is day 1 of the proleptic calendar on our microsecond scale. -/
def tsKey (item : PyObj) : ℤ :=
  match dictGet? item.asDict (.vstr "_parsed_timestamp") with
  | some (.vdt t) => t
  | _ => 86400000000

/-- Python `max(l, key=f)`: the first element attaining the maximal key
(later elements replace the running maximum only when strictly greater). -/
def maxByFirst (key : PyObj → ℤ) : List PyObj → Option PyObj
  | [] => none
  | x :: xs => some (xs.foldl (fun best y => if key y > key best then y else best) x)

/-- Output shaping of the winning item (xml2json_deduplicated.py, lines
267-298): drop `_parsed_timestamp`, copy `timestamp`/`sequence` from the
attributes, then either (`conditions`) take the first remaining dict key as
the `state` and the `type` attribute as `category`, or (samples/events)
coerce the `#text` into `value` and copy `subType`/`compositionId` when
truthy and `assetType`/`count` when not `None` (`count` re-coerced). -/
def transformItem (latest : PyObj) (item_type : String) : PyObj :=
  let d := dictDel latest.asDict (.vstr "_parsed_timestamp")
  let attrs := (dictGetD d (.vstr "@attributes") (.vdict [])).asDict
  let base := [((.vstr "timestamp" : PyObj), dictGetD attrs (.vstr "timestamp") .vnone),
               ((.vstr "sequence" : PyObj), dictGetD attrs (.vstr "sequence") .vnone)]
  if item_type = "conditions" then
    let tag := (d.find? (fun p =>
      !(PyObj.beq p.1 (.vstr "@attributes")) && !(PyObj.beq p.1 (.vstr "_parsed_timestamp")))).map Prod.fst
    .vdict (base ++ [((.vstr "state" : PyObj), tag.getD .vnone),
                     ((.vstr "category" : PyObj), dictGetD attrs (.vstr "type") .vnone)])
  else
    let value := convert_value (dictGetD d (.vstr "#text") .vnone)
    let sub := dictGetD attrs (.vstr "subType") .vnone
    let comp := dictGetD attrs (.vstr "compositionId") .vnone
    let asset := dictGetD attrs (.vstr "assetType") .vnone
    let cnt := dictGetD attrs (.vstr "count") .vnone
    .vdict (base ++ [((.vstr "value" : PyObj), value)]
      ++ (if sub.truthy then [((.vstr "subType" : PyObj), sub)] else [])
      ++ (if comp.truthy then [((.vstr "compositionId" : PyObj), comp)] else [])
      ++ (match asset with
          | .vnone => []
          | a => [((.vstr "assetType" : PyObj), a)])
      ++ (match cnt with
          | .vnone => []
          | c => [((.vstr "count" : PyObj), convert_value c)]))

/-- One step of the grouping loop: a validated item joins its
`dataItemId`'s group, anything else leaves the groups unchanged. -/
def groupStep (g : List (PyObj × List PyObj)) (item : PyObj) :
    List (PyObj × List PyObj) :=
  match itemEntry item with
  | some kit => groupInsert g kit.1 kit.2
  | none => g

/-- One step of the result loop: a non-empty group contributes its latest
item, shaped, under the group's `dataItemId` (`if item_list:` in the
source). -/
def resStep (item_type : String) (res : List (PyObj × PyObj))
    (kl : PyObj × List PyObj) : List (PyObj × PyObj) :=
  match maxByFirst tsKey kl.2 with
  | some latest => dictSet res kl.1 (transformItem latest item_type)
  | none => res

/-- `deduplicate_data_items` (xml2json_deduplicated.py, lines 223-302):
falsy input yields `{}`; a dict is wrapped into a one-element list and a
non-list non-dict yields `{}`; valid items are grouped by `dataItemId` in
encounter order, and for each group the item with the greatest parsed
timestamp (the first such, on ties) is shaped by `transformItem` and keyed
by the `dataItemId`. -/
def deduplicate_data_items (items : PyObj) (item_type : String) : List (PyObj × PyObj) :=
  if !items.truthy then []
  else
    let itemList : List PyObj :=
      match items with
      | .vdict _ => [items]
      | .vlist l => l
      | _ => []
    (itemList.foldl groupStep []).foldl (resStep item_type) []

/-- An XML element as `xml.etree.ElementTree` presents it: a (possibly
`\x7bnamespace\x7d`-prefixed) tag, attributes in document order, optional
text, child elements in document order.  The model starts from the parsed
tree; `ET.fromstring` and its `ParseError` (malformed XML text) are outside
it. -/
inductive XElem : Type where
  | mk : String → List (String × String) → Option String → List XElem → XElem

/-- Tag of an element. -/
def XElem.tag : XElem → String
  | .mk t _ _ _ => t

/-- Attributes of an element. -/
def XElem.attrs : XElem → List (String × String)
  | .mk _ a _ _ => a

/-- Text of an element. -/
def XElem.text : XElem → Option String
  | .mk _ _ tx _ => tx

/-- Children of an element. -/
def XElem.children : XElem → List XElem
  | .mk _ _ _ ch => ch

mutual

/-- All strict descendants of an element in document (preorder) order,
as an ElementTree `.//` path enumerates them. -/
def XElem.descendants : XElem → List XElem
  | .mk _ _ _ ch => XElem.descList ch

/-- Concatenated preorder enumeration of a child list. -/
def XElem.descList : List XElem → List XElem
  | [] => []
  | c :: cs => c :: (XElem.descendants c ++ XElem.descList cs)

end

/-- `strip_ns` (both scripts): the part of the tag after the first
`\x7d`, if any. -/
def strip_ns (tag : String) : String :=
  if tag.data.contains '\x7d' then
    String.mk ((tag.data.dropWhile (fun c => c ≠ '\x7d')).drop 1)
  else tag

/-- Tag test of a plain (no-namespace) ElementTree path step. -/
def patNoNs (name tag : String) : Bool := tag = name

/-- Tag test of a `\x7b*\x7d`-wildcard path step: the local name matches in
any or no namespace. -/
def patWild (name tag : String) : Bool := strip_ns tag = name

/-- Tag test of an exact-namespace path step. -/
def patExact (ns name tag : String) : Bool := tag = "\x7b" ++ ns ++ "\x7d" ++ name

/-- The MTConnect streams namespace the converter hardcodes. -/
def mtcNs : String := "urn:mtconnect.org:MTConnectStreams:1.5"

/-- `root.find('.//…')`: first descendant, in document order, whose tag
passes the test. -/
def findDesc (p : String → Bool) (root : XElem) : Option XElem :=
  root.descendants.find? (fun e => p e.tag)

/-- `root.findall('.//…')`: all matching descendants in document order. -/
def findallDesc (p : String → Bool) (root : XElem) : List XElem :=
  root.descendants.filter (fun e => p e.tag)

/-- `e.find('name')`: first direct child whose tag passes the test. -/
def findChild (p : String → Bool) (e : XElem) : Option XElem :=
  e.children.find? (fun c => p c.tag)

/-- Is `needle` a contiguous subsequence of `hay` (Python `in` on
strings)? -/
def containsSeq (hay needle : List Char) : Bool :=
  match hay with
  | [] => needle.isEmpty
  | _ :: t => needle.isPrefixOf hay || containsSeq t needle

/-- Python `sub in s` for strings. -/
def strContains (s sub : String) : Bool := containsSeq s.data sub.data

/-- `extract_attributes` (xml2json_deduplicated.py, lines 211-221):
attribute map with `xmlns…` and `xsi:schemaLocation` keys dropped and
values coerced through `convert_value`. -/
def extract_attributes (e : XElem) : PyObj :=
  .vdict ((e.attrs.filter (fun kv =>
      !("xmlns".data.isPrefixOf kv.1.data) && kv.1 ≠ "xsi:schemaLocation")).map
    (fun kv => ((.vstr kv.1 : PyObj), convert_value (.vstr kv.2))))

/-- Device-stream probe (xml2json_deduplicated.py, lines 396-408): the
patterns `.//DeviceStream`, `.//\x7b*\x7dDeviceStream`,
`.//\x7burn:mtconnect.org:MTConnectStreams:1.5\x7dDeviceStream` are tried
in order and the first that resolves wins. -/
def locate_device_stream (root : XElem) : Option XElem :=
  match findDesc (patNoNs "DeviceStream") root with
  | some e => some e
  | none =>
    match findDesc (patWild "DeviceStream") root with
    | some e => some e
    | none => findDesc (patExact mtcNs "DeviceStream") root

/-- Component-stream probe (xml2json_deduplicated.py, lines 431-450): the
three `ComponentStream` patterns are tried in order, first non-empty result
wins; if all come up empty, any descendant whose tag contains `Component`
(or, lowercased, `component`) is taken as a candidate. -/
def locate_component_streams (ds : XElem) : List XElem :=
  let l1 := findallDesc (patNoNs "ComponentStream") ds
  if !l1.isEmpty then l1
  else
    let l2 := findallDesc (patWild "ComponentStream") ds
    if !l2.isEmpty then l2
    else
      let l3 := findallDesc (patExact mtcNs "ComponentStream") ds
      if !l3.isEmpty then l3
      else ds.descendants.filter (fun e =>
        strContains e.tag "Component" ||
        containsSeq (e.tag.data.map Char.toLower) "component".data)

/-- Probe for a direct child group (`Samples`/`Events`/`Condition`) under a
component: plain, wildcard and exact-namespace tags tried in order
(xml2json_deduplicated.py, lines 461-507). -/
def findChildPat (name : String) (e : XElem) : Option XElem :=
  match findChild (patNoNs name) e with
  | some x => some x
  | none =>
    match findChild (patWild name) e with
    | some x => some x
    | none => findChild (patExact mtcNs name) e

/-- The per-item dict the converter appends for each leaf element:
`@attributes` and the stripped `#text` (empty or missing text becomes
`None`). -/
def itemDictOf (x : XElem) : PyObj :=
  .vdict [((.vstr "@attributes" : PyObj), extract_attributes x),
          ((.vstr "#text" : PyObj),
            match x.text with
            | some s => if s = "" then .vnone else .vstr s.trim
            | none => .vnone)]

/-- Group the direct children of a `Samples`/`Events`/`Condition` element
by stripped tag name, in document order, each group a list of item dicts
(xml2json_deduplicated.py, lines 471-478 and analogous). -/
def groupItems (xs : List XElem) : List (PyObj × PyObj) :=
  xs.foldl (fun d x =>
    let tag : PyObj := .vstr (strip_ns x.tag)
    match dictGet? d tag with
    | some (.vlist l) => dictSet d tag (.vlist (l ++ [itemDictOf x]))
    | _ => dictSet d tag (.vlist [itemDictOf x])) []

/-- The `comp_dict` built for one component stream (xml2json_deduplicated.py,
lines 458-520): its extracted attributes plus a grouped dict for each of the
`Samples`/`Events`/`Condition` children that resolve. -/
def comp_dict_of (comp : XElem) : PyObj :=
  .vdict ([((.vstr "@attributes" : PyObj), extract_attributes comp)]
    ++ (match findChildPat "Samples" comp with
        | some se => [((.vstr "Samples" : PyObj), .vdict (groupItems se.children))]
        | none => [])
    ++ (match findChildPat "Events" comp with
        | some ee => [((.vstr "Events" : PyObj), .vdict (groupItems ee.children))]
        | none => [])
    ++ (match findChildPat "Condition" comp with
        | some ce => [((.vstr "Condition" : PyObj), .vdict (groupItems ce.children))]
        | none => []))

/-- One `Samples`/`Events`/`Condition` section of a component: deduplicate
each tag's data (wrapping a single item into a list) and fold the results
into one dict (xml2json_deduplicated.py, lines 323-375). -/
def dedupSection (section' : PyObj) (t : String) : List (PyObj × PyObj) :=
  section'.asDict.foldl (fun acc kv =>
    if PyObj.beq kv.1 (.vstr "@attributes") then acc
    else
      let ded := match kv.2 with
        | .vlist _ => deduplicate_data_items kv.2 t
        | _ => deduplicate_data_items (.vlist [kv.2]) t
      ded.foldl (fun a p => dictSet a p.1 p.2) acc) []

/-- `transform_components_deduplicated` (xml2json_deduplicated.py, lines
304-379): keep components with a truthy `componentId`, shape them as
`type`/`name` plus the deduplicated sections, keyed by the component id. -/
def transform_components_deduplicated (comps : List PyObj) : List (PyObj × PyObj) :=
  comps.foldl (fun acc comp =>
    let attrs := (dictGetD comp.asDict (.vstr "@attributes") (.vdict [])).asDict
    let cid := dictGetD attrs (.vstr "componentId") .vnone
    if !cid.truthy then acc
    else
      let base := [((.vstr "type" : PyObj), dictGetD attrs (.vstr "component") .vnone),
                   ((.vstr "name" : PyObj), dictGetD attrs (.vstr "name") .vnone)]
      let sE := match dictGet? comp.asDict (.vstr "Samples") with
        | some s => [((.vstr "samples" : PyObj), .vdict (dedupSection s "samples"))]
        | none => []
      let eE := match dictGet? comp.asDict (.vstr "Events") with
        | some s => [((.vstr "events" : PyObj), .vdict (dedupSection s "events"))]
        | none => []
      let cE := match dictGet? comp.asDict (.vstr "Condition") with
        | some s => [((.vstr "conditions" : PyObj), .vdict (dedupSection s "conditions"))]
        | none => []
      dictSet acc cid (.vdict (base ++ sE ++ eE ++ cE))) []

/-- Body of `convert_xml_to_json_deduplicated` (xml2json_deduplicated.py,
lines 381-535) once a device-stream element `ds` has been chosen: header
extraction, device attribute defaults, component-stream probe,
per-component dict building and deduplicating transformation.  The
function always produces a document for a parsed tree; the source's
`None` returns happen only for unparsable XML text or an
interpreter-level exception, neither of which this data flow raises. -/
def convert_with_device (root ds : XElem) : PyObj :=
  let header := match findDesc (patNoNs "Header") root with
    | some h => extract_attributes h
    | none => .vdict []
  let dattrs := (extract_attributes ds).asDict
  let dname := (dictGet? dattrs (.vstr "name")).getD (.vstr "Unknown")
  let duuid := (dictGet? dattrs (.vstr "uuid")).getD (.vstr "Unknown")
  let comps := locate_component_streams ds
  let components :=
    if comps.isEmpty then ([] : List (PyObj × PyObj))
    else transform_components_deduplicated (comps.map comp_dict_of)
  .vdict [((.vstr "header" : PyObj), header),
          ((.vstr "device" : PyObj),
            .vdict [((.vstr "name" : PyObj), dname),
                    ((.vstr "uuid" : PyObj), duuid),
                    ((.vstr "components" : PyObj), .vdict components)])]

/-- The conversion entry point on a parsed tree: the device-stream probe
with fall-back to the root itself, then the conversion body. -/
def convert_xml_to_json_deduplicated (root : XElem) : PyObj :=
  convert_with_device root ((locate_device_stream root).getD root)

/-- Lookup in a string-keyed Python dict (merge_machine_data.py works on
parsed JSON objects, whose keys are strings). -/
def getS? {v : Type} (d : List (String × v)) (k : String) : Option v :=
  match d with
  | [] => none
  | (k', x) :: r => if k' = k then some x else getS? r k

/-- Membership in a string-keyed dict. -/
def memS {v : Type} (d : List (String × v)) (k : String) : Bool :=
  (getS? d k).isSome

/-- `d[k] = x` on a string-keyed dict: in-place update or append. -/
def setS {v : Type} (d : List (String × v)) (k : String) (x : v) : List (String × v) :=
  match d with
  | [] => [(k, x)]
  | (k', x') :: r => if k' = k then (k', x) :: r else (k', x') :: setS r k x

/-- A JSON value that is either a single (scalar) entry or a list of
entries — the single-vs-list ambiguity `merge_samples`/`merge_events`
branch on with `isinstance(…, list)`. -/
inductive LV (α : Type) : Type where
  | scalar : α → LV α
  | list : List α → LV α
  deriving DecidableEq

/-- Coercion of a scalar to a one-element list (`[sample_data]`), lists
kept as they are. -/
def LV.toList {α : Type} : LV α → List α
  | .scalar a => [a]
  | .list l => l

/-- `merge_samples` (merge_machine_data.py, lines 119-148): falsy existing
dict returns the new dict unchanged; otherwise, per name in the new dict,
a fresh name is stored list-coerced, and a name present on both sides is
stored as existing-coerced-to-list concatenated with new-coerced-to-list. -/
def merge_samples {α : Type} (existing new : List (String × LV α)) :
    List (String × LV α) :=
  if existing.isEmpty then new
  else new.foldl (fun merged nd =>
    match getS? merged nd.1 with
    | none => setS merged nd.1 (.list nd.2.toList)
    | some ex => setS merged nd.1 (.list (ex.toList ++ nd.2.toList))) existing

/-- `merge_events` (merge_machine_data.py, lines 150-179): textually the
same policy as `merge_samples`, kept as its own definition as in the
source. -/
def merge_events {α : Type} (existing new : List (String × LV α)) :
    List (String × LV α) :=
  if existing.isEmpty then new
  else new.foldl (fun merged nd =>
    match getS? merged nd.1 with
    | none => setS merged nd.1 (.list nd.2.toList)
    | some ex => setS merged nd.1 (.list (ex.toList ++ nd.2.toList))) existing

/-- `merge_conditions` (merge_machine_data.py, lines 181-196): falsy
existing dict returns the new dict; otherwise every entry of the new dict
is written over the existing dict, whether or not the name is present —
both branches of the source assign `condition_data`. -/
def merge_conditions {γ : Type} (existing new : List (String × γ)) :
    List (String × γ) :=
  if existing.isEmpty then new
  else new.foldl (fun merged nd => setS merged nd.1 nd.2) existing

/-- One merged component as `merge_components` sees it: the optional
`samples`/`events`/`conditions` sub-dicts (key present or not) and the
descriptive `type`/`name` fields. -/
structure Component (α β γ : Type) : Type where
  type : Option β
  name : Option β
  samples : Option (List (String × LV α))
  events : Option (List (String × LV α))
  conditions : Option (List (String × γ))
  deriving DecidableEq

/-- Body of the `merge_components` loop for a component present on both
sides (merge_machine_data.py, lines 209-233): each category is merged when
present on both sides, taken from the incoming component when only it has
the category, kept otherwise; `type`/`name` are overwritten when the
incoming component carries them. -/
def merge_component_pair {α β γ : Type} (ex c : Component α β γ) : Component α β γ :=
  { type := match c.type with
      | some t => some t
      | none => ex.type
    name := match c.name with
      | some n => some n
      | none => ex.name
    samples := match c.samples, ex.samples with
      | some ns, some es => some (merge_samples es ns)
      | some ns, none => some ns
      | none, es => es
    events := match c.events, ex.events with
      | some ns, some es => some (merge_events es ns)
      | some ns, none => some ns
      | none, es => es
    conditions := match c.conditions, ex.conditions with
      | some ns, some es => some (merge_conditions es ns)
      | some ns, none => some ns
      | none, es => es }

/-- `merge_components` (merge_machine_data.py, lines 198-235): falsy
existing dict returns the new dict; a fresh component id is inserted
wholesale; a component present on both sides is merged per category. -/
def merge_components {α β γ : Type}
    (existing new : List (String × Component α β γ)) :
    List (String × Component α β γ) :=
  if existing.isEmpty then new
  else new.foldl (fun merged nd =>
    match getS? merged nd.1 with
    | none => setS merged nd.1 nd.2
    | some ex => setS merged nd.1 (merge_component_pair ex nd.2)) existing

/-- The `device` object of a machine document: its `name`/`uuid` and the
optional `components` dict. -/
structure Device (α β γ : Type) : Type where
  name : Option β
  uuid : Option β
  components : Option (List (String × Component α β γ))
  deriving DecidableEq

/-- A machine document as `merge_machine_data` sees it: optional `header`,
optional `device` and optional top-level `components`. -/
structure MachineDoc (α β γ : Type) : Type where
  header : Option β
  device : Option (Device α β γ)
  components : Option (List (String × Component α β γ))
  deriving DecidableEq

/-- `merge_machine_data` (merge_machine_data.py, lines 237-263): a falsy
existing document returns the new one; otherwise device components are
merged when both documents carry them (the existing device's other fields
are kept, the incoming device is copied wholesale only when the existing
document has no `device` key), top-level components likewise, and the
header is replaced whenever the incoming document has one. -/
def merge_machine_data {α β γ : Type}
    (existing : Option (MachineDoc α β γ)) (nd : MachineDoc α β γ) :
    MachineDoc α β γ :=
  match existing with
  | none => nd
  | some ex =>
    { header := match nd.header with
        | some h => some h
        | none => ex.header
      device := match nd.device, ex.device with
        | some ndev, some edev =>
          some { edev with components :=
            match ndev.components, edev.components with
            | some nc, some ec => some (merge_components ec nc)
            | some nc, none => some nc
            | none, _ => edev.components }
        | some ndev, none => some ndev
        | none, d => d
      components := match nd.components, ex.components with
        | some nc, some ec => some (merge_components ec nc)
        | some nc, none => some nc
        | none, c => c }

/-- The statements of `main` in load_data_efficient.py (lines 374-426)
that touch the database or control the run, in program order. -/
inductive Stmt : Type where
  | connect : Stmt
  | setReplica : Stmt
  | loadSamples : Stmt
  | loadEvents : Stmt
  | setDefault : Stmt
  | commitTx : Stmt
  | showSummary : Stmt
  | rollbackTx : Stmt
  | closeCur : Stmt
  | closeConn : Stmt
  deriving DecidableEq

/-- Flags of the loader's argument parser. -/
structure LoadArgs : Type where
  samples : Bool
  events : Bool
  all : Bool

/-- The statement sequence of the `try` block of `main`
(load_data_efficient.py, lines 374-415): connect, disable triggers
(`SET session_replication_role = replica`), the selected load steps,
re-enable triggers (`… = DEFAULT`), commit, summary queries. -/
def tryBody (a : LoadArgs) : List Stmt :=
  [.connect, .setReplica]
  ++ (if a.all || a.samples then [Stmt.loadSamples] else [])
  ++ (if a.all || a.events then [Stmt.loadEvents] else [])
  ++ [.setDefault, .commitTx, .showSummary]

/-- Control flow of `main` (load_data_efficient.py, lines 367-426; the
`main` of load_processed_data.py lines 349-415 has the same shape): with
no load flag the function returns immediately; otherwise the `try` body
runs until its first failing statement, a failure jumps to the `except`
clause (rollback when a connection exists, then re-raise) and the
`finally` clause closes the cursor and connection that were opened.
Returns the executed statement trace and whether the run raised. -/
def load_data_efficient_main (a : LoadArgs) (failAt : Option Stmt) :
    List Stmt × Bool :=
  if !(a.samples || a.events || a.all) then ([], false)
  else
    let body := tryBody a
    match failAt with
    | some s =>
      if body.contains s then
        let executed := body.takeWhile (fun t => t ≠ s)
        let cleanup := if s = Stmt.connect then ([] : List Stmt)
          else [Stmt.rollbackTx, Stmt.closeCur, Stmt.closeConn]
        (executed ++ cleanup, true)
      else (body ++ [Stmt.closeCur, Stmt.closeConn], false)
    | none => (body ++ [Stmt.closeCur, Stmt.closeConn], false)

/-- The items of a raw list that the grouping loop files under the
identifier `X`: validated by `itemEntry` and keyed exactly `X`, in
document order, already carrying their parsed timestamp. -/
def selectedItems (items : List PyObj) (X : String) : List PyObj :=
  items.filterMap (fun it =>
    match itemEntry it with
    | some kv => if kv.1 = PyObj.vstr X then some kv.2 else none
    | none => none)

/-- Lookup of a group by key (first entry whose key compares `==`). -/
def groupGet? (g : List (PyObj × List PyObj)) (k : PyObj) : Option (List PyObj) :=
  match g with
  | [] => none
  | (k', l) :: r => if PyObj.beq k' k then some l else groupGet? r k

/-- Does the item either fail validation or carry a string `dataItemId`?
(The identifiers of this pipeline are strings; the grouping lemmas below
assume only this.) -/
def itemStrKeyed (it : PyObj) : Bool :=
  match itemEntry it with
  | some kv =>
    match kv.1 with
    | .vstr _ => true
    | _ => false
  | none => true

/-- Append a batch to an optional existing group, creating it when the
batch is non-empty. -/
def optCat (o : Option (List PyObj)) (l : List PyObj) : Option (List PyObj) :=
  match o, l with
  | none, [] => none
  | none, l => some l
  | some l0, l => some (l0 ++ l)

/-- All group keys are strings. -/
def strKeyed (g : List (PyObj × List PyObj)) : Prop :=
  ∀ p ∈ g, ∃ s, p.1 = PyObj.vstr s

theorem beq_vstr_vstr (a b : String) :
    PyObj.beq (.vstr a) (.vstr b) = decide (a = b) := by
  simp [PyObj.beq]

theorem groupInsert_key_mem {g : List (PyObj × List PyObj)} {k it : PyObj}
    {p : PyObj × List PyObj} (h : p ∈ groupInsert g k it) :
    p.1 ∈ g.map Prod.fst ∨ p.1 = k := by
  induction g with
  | nil =>
    simp only [groupInsert, List.mem_singleton] at h
    right
    rw [h]
  | cons q r ih =>
    obtain ⟨k', l⟩ := q
    simp only [groupInsert] at h
    by_cases hb : PyObj.beq k' k = true
    · rw [if_pos hb] at h
      rcases List.mem_cons.mp h with h | h
      · left
        rw [h]
        simp
      · left
        simp only [List.map_cons, List.mem_cons]
        exact Or.inr (List.mem_map_of_mem Prod.fst h)
    · rw [if_neg hb] at h
      rcases List.mem_cons.mp h with h | h
      · left
        rw [h]
        simp
      · rcases ih h with h' | h'
        · left
          simp only [List.map_cons, List.mem_cons]
          exact Or.inr h'
        · right
          exact h'

theorem groupInsert_strKeyed {g : List (PyObj × List PyObj)} (hg : strKeyed g)
    (s : String) (it : PyObj) : strKeyed (groupInsert g (.vstr s) it) := by
  intro p hp
  rcases groupInsert_key_mem hp with h | h
  · rcases List.mem_map.mp h with ⟨q, hq, hqe⟩
    obtain ⟨s', hs'⟩ := hg q hq
    exact ⟨s', by rw [← hqe, hs']⟩
  · exact ⟨s, h⟩

theorem groupInsert_nonempty {g : List (PyObj × List PyObj)}
    (hg : ∀ p ∈ g, p.2 ≠ []) (k it : PyObj) :
    ∀ p ∈ groupInsert g k it, p.2 ≠ [] := by
  induction g with
  | nil =>
    intro p hp
    simp only [groupInsert, List.mem_singleton] at hp
    rw [hp]
    simp
  | cons q r ih =>
    obtain ⟨k', l⟩ := q
    intro p hp
    simp only [groupInsert] at hp
    by_cases hb : PyObj.beq k' k = true
    · rw [if_pos hb] at hp
      rcases List.mem_cons.mp hp with hp | hp
      · rw [hp]
        simp
      · exact hg p (List.mem_cons_of_mem _ hp)
    · rw [if_neg hb] at hp
      rcases List.mem_cons.mp hp with hp | hp
      · rw [hp]
        exact hg (k', l) (List.mem_cons_self _ _)
      · exact ih (fun q hq => hg q (List.mem_cons_of_mem _ hq)) p hp

theorem groupInsert_get {g : List (PyObj × List PyObj)} (hg : strKeyed g)
    (s : String) (it : PyObj) (X : String) :
    groupGet? (groupInsert g (.vstr s) it) (.vstr X) =
      if s = X then some (((groupGet? g (.vstr X)).getD []) ++ [it])
      else groupGet? g (.vstr X) := by
  induction g with
  | nil =>
    by_cases h : s = X <;> simp [groupInsert, groupGet?, beq_vstr_vstr, h]
  | cons q r ih =>
    obtain ⟨k', l⟩ := q
    obtain ⟨s', hs'⟩ := hg (k', l) (List.mem_cons_self _ _)
    simp only at hs'
    subst hs'
    have ihr := ih (fun p hp => hg p (List.mem_cons_of_mem _ hp))
    by_cases h1 : s' = s
    · subst h1
      by_cases h2 : s' = X
      · subst h2
        simp [groupInsert, groupGet?, beq_vstr_vstr]
      · simp [groupInsert, groupGet?, beq_vstr_vstr, h2]
    · by_cases h2 : s' = X
      · subst h2
        have h3 : ¬ s = s' := fun hc => h1 hc.symm
        simp [groupInsert, groupGet?, beq_vstr_vstr, h1, h3]
      · by_cases h3 : s = X
        · subst h3
          simp [groupInsert, groupGet?, beq_vstr_vstr, h1, h2, ihr]
        · simp [groupInsert, groupGet?, beq_vstr_vstr, h1, h2, h3, ihr]

/-- Group keys are pairwise distinct under Python `==` (the defaultdict
invariant). -/
def keysDistinct (g : List (PyObj × List PyObj)) : Prop :=
  List.Pairwise (fun p q => PyObj.beq p.1 q.1 = false) g

theorem itemStrKeyed_elim {it : PyObj} {kv : PyObj × PyObj}
    (hs : itemStrKeyed it = true) (he : itemEntry it = some kv) :
    ∃ s, kv.1 = PyObj.vstr s := by
  obtain ⟨k1, v1⟩ := kv
  unfold itemStrKeyed at hs
  rw [he] at hs
  simp only at hs ⊢
  cases k1 with
  | vstr s => exact ⟨s, rfl⟩
  | vnone => simp at hs
  | vint a => simp at hs
  | vfloat a => simp at hs
  | vdt a => simp at hs
  | vdict a => simp at hs
  | vlist a => simp at hs

theorem groupInsert_keysDistinct {g : List (PyObj × List PyObj)} {k it : PyObj}
    (hpw : keysDistinct g) : keysDistinct (groupInsert g k it) := by
  induction g with
  | nil => simp [groupInsert, keysDistinct]
  | cons q r ih =>
    obtain ⟨k', l⟩ := q
    rcases (List.pairwise_cons.mp hpw) with ⟨hhead, hr⟩
    by_cases hb : PyObj.beq k' k = true
    · simp only [groupInsert, if_pos hb]
      exact List.pairwise_cons.mpr ⟨hhead, hr⟩
    · simp only [groupInsert, if_neg hb]
      refine List.pairwise_cons.mpr ⟨?_, ih hr⟩
      intro q hq
      rcases groupInsert_key_mem hq with h | h
      · rcases List.mem_map.mp h with ⟨p, hp, hpe⟩
        rw [← hpe]
        exact hhead p hp
      · rw [h]
        exact Bool.not_eq_true _ ▸ (by simpa using hb)

theorem optCat_nil (o : Option (List PyObj)) : optCat o [] = o := by
  cases o <;> simp [optCat]

theorem foldl_groupStep_inv (items : List PyObj) :
    ∀ g, (∀ it ∈ items, itemStrKeyed it = true) → strKeyed g →
    (∀ p ∈ g, p.2 ≠ []) → keysDistinct g →
    strKeyed (items.foldl groupStep g) ∧
    (∀ p ∈ items.foldl groupStep g, p.2 ≠ []) ∧
    keysDistinct (items.foldl groupStep g) := by
  induction items with
  | nil => intro g _ h1 h2 h3; exact ⟨h1, h2, h3⟩
  | cons it rest ih =>
    intro g hstr h1 h2 h3
    have hit : itemStrKeyed it = true := hstr it (List.mem_cons_self _ _)
    have hrest : ∀ x ∈ rest, itemStrKeyed x = true :=
      fun x hx => hstr x (List.mem_cons_of_mem _ hx)
    simp only [List.foldl_cons]
    cases he : itemEntry it with
    | none =>
      have : groupStep g it = g := by simp [groupStep, he]
      rw [this]
      exact ih g hrest h1 h2 h3
    | some kv =>
      obtain ⟨s, hk⟩ := itemStrKeyed_elim hit he
      have hstep : groupStep g it = groupInsert g (.vstr s) kv.2 := by
        simp [groupStep, he, hk]
      rw [hstep]
      exact ih _ hrest (groupInsert_strKeyed h1 s kv.2)
        (groupInsert_nonempty h2 _ _) (groupInsert_keysDistinct h3)

theorem selectedItems_cons_none {it : PyObj} {rest : List PyObj} {X : String}
    (he : itemEntry it = none) :
    selectedItems (it :: rest) X = selectedItems rest X := by
  simp [selectedItems, List.filterMap_cons, he]

theorem selectedItems_cons_some {it : PyObj} {rest : List PyObj} {X s : String}
    {kv : PyObj × PyObj} (he : itemEntry it = some kv) (hk : kv.1 = .vstr s) :
    selectedItems (it :: rest) X =
      if s = X then kv.2 :: selectedItems rest X else selectedItems rest X := by
  by_cases h : s = X
  · subst h
    simp [selectedItems, List.filterMap_cons, he, hk]
  · have : ¬ (PyObj.vstr s = PyObj.vstr X) := by
      intro hc
      exact h (by injection hc)
    simp [selectedItems, List.filterMap_cons, he, hk, this, h]

theorem foldl_groupStep_get (items : List PyObj) :
    ∀ g X, (∀ it ∈ items, itemStrKeyed it = true) → strKeyed g →
    groupGet? (items.foldl groupStep g) (.vstr X) =
      optCat (groupGet? g (.vstr X)) (selectedItems items X) := by
  induction items with
  | nil =>
    intro g X _ _
    simp [selectedItems, optCat_nil]
  | cons it rest ih =>
    intro g X hstr hg
    have hit : itemStrKeyed it = true := hstr it (List.mem_cons_self _ _)
    have hrest : ∀ x ∈ rest, itemStrKeyed x = true :=
      fun x hx => hstr x (List.mem_cons_of_mem _ hx)
    simp only [List.foldl_cons]
    cases he : itemEntry it with
    | none =>
      have hstep : groupStep g it = g := by simp [groupStep, he]
      rw [hstep, selectedItems_cons_none he]
      exact ih g X hrest hg
    | some kv =>
      obtain ⟨s, hk⟩ := itemStrKeyed_elim hit he
      have hstep : groupStep g it = groupInsert g (.vstr s) kv.2 := by
        simp [groupStep, he, hk]
      rw [hstep, selectedItems_cons_some he hk,
        ih (groupInsert g (.vstr s) kv.2) X hrest (groupInsert_strKeyed hg s kv.2),
        groupInsert_get hg s kv.2 X]
      by_cases h : s = X
      · subst h
        cases hgx : groupGet? g (.vstr s) <;> simp [optCat]
      · simp [h]

/-- The result entry a non-empty group contributes: its key and the shaped
latest item. -/
def dedupWinner (t : String) (kl : PyObj × List PyObj) : PyObj × PyObj :=
  (kl.1, transformItem ((maxByFirst tsKey kl.2).getD .vnone) t)

theorem dictSet_fresh {d : List (PyObj × PyObj)} {k v : PyObj}
    (h : ∀ q ∈ d, PyObj.beq q.1 k = false) : dictSet d k v = d ++ [(k, v)] := by
  induction d with
  | nil => simp [dictSet]
  | cons q r ih =>
    obtain ⟨k', v'⟩ := q
    have hk : PyObj.beq k' k = false := h (k', v') (List.mem_cons_self _ _)
    simp only [dictSet, hk]
    simp [ih (fun q hq => h q (List.mem_cons_of_mem _ hq))]

theorem foldl_resStep_map (t : String) :
    ∀ (grouped : List (PyObj × List PyObj)) (res : List (PyObj × PyObj)),
    (∀ p ∈ grouped, p.2 ≠ []) → keysDistinct grouped →
    (∀ p ∈ grouped, ∀ q ∈ res, PyObj.beq q.1 p.1 = false) →
    grouped.foldl (resStep t) res = res ++ grouped.map (dedupWinner t) := by
  intro grouped
  induction grouped with
  | nil => intro res _ _ _; simp
  | cons kl rest ih =>
    intro res hne hpw hfresh
    obtain ⟨k, l⟩ := kl
    obtain ⟨x, xs, hl⟩ : ∃ x xs, l = x :: xs := by
      cases l with
      | nil => exact absurd rfl (hne (k, []) (List.mem_cons_self _ _))
      | cons x xs => exact ⟨x, xs, rfl⟩
    subst hl
    rcases List.pairwise_cons.mp hpw with ⟨hhead, hrest⟩
    have hstep : resStep t res (k, x :: xs) =
        res ++ [dedupWinner t (k, x :: xs)] := by
      simp only [resStep, maxByFirst, dedupWinner, Option.getD]
      exact dictSet_fresh (fun q hq => hfresh (k, x :: xs) (List.mem_cons_self _ _) q hq)
    simp only [List.foldl_cons, hstep]
    rw [ih (res ++ [dedupWinner t (k, x :: xs)])
      (fun p hp => hne p (List.mem_cons_of_mem _ hp)) hrest ?_]
    · simp
    · intro p hp q hq
      rcases List.mem_append.mp hq with hq | hq
      · exact hfresh p (List.mem_cons_of_mem _ hp) q hq
      · rcases List.mem_singleton.mp hq with rfl
        exact hhead p hp

theorem dictGet?_winnerMap (t : String) :
    ∀ (g : List (PyObj × List PyObj)) (k : PyObj),
    dictGet? (g.map (dedupWinner t)) k =
      (groupGet? g k).map (fun l => transformItem ((maxByFirst tsKey l).getD .vnone) t) := by
  intro g
  induction g with
  | nil => intro k; simp [groupGet?, dictGet?]
  | cons kl rest ih =>
    intro k
    obtain ⟨k', l⟩ := kl
    by_cases hb : PyObj.beq k' k = true
    · simp [dictGet?, groupGet?, dedupWinner, hb]
    · simp only [List.map_cons, dictGet?, groupGet?, dedupWinner]
      rw [if_neg hb, if_neg hb]
      exact ih k

theorem filter_winnerMap_none (t : String) {g : List (PyObj × List PyObj)}
    {X : String} (h : ∀ p ∈ g, ¬ p.1 = PyObj.vstr X) :
    (g.map (dedupWinner t)).filter (fun p => p.1 = PyObj.vstr X) = [] := by
  induction g with
  | nil => simp
  | cons kl rest ih =>
    have hk : ¬ kl.1 = PyObj.vstr X := h kl (List.mem_cons_self _ _)
    simp only [List.map_cons, List.filter_cons, dedupWinner]
    rw [if_neg (by simpa using hk)]
    exact ih (fun p hp => h p (List.mem_cons_of_mem _ hp))

theorem filter_winnerMap (t : String) :
    ∀ (g : List (PyObj × List PyObj)) (X : String), strKeyed g → keysDistinct g →
    (g.map (dedupWinner t)).filter (fun p => p.1 = PyObj.vstr X) =
      (match groupGet? g (.vstr X) with
       | some l => [(PyObj.vstr X, transformItem ((maxByFirst tsKey l).getD .vnone) t)]
       | none => []) := by
  intro g
  induction g with
  | nil => intro X _ _; simp [groupGet?]
  | cons kl rest ih =>
    intro X hg hpw
    obtain ⟨k', l⟩ := kl
    obtain ⟨s', hs'⟩ := hg (k', l) (List.mem_cons_self _ _)
    simp only at hs'
    subst hs'
    rcases List.pairwise_cons.mp hpw with ⟨hhead, hrest⟩
    by_cases h : s' = X
    · subst h
      have hrestX : ∀ p ∈ rest, ¬ p.1 = PyObj.vstr s' := by
        intro p hp hc
        have := hhead p hp
        rw [hc, beq_vstr_vstr] at this
        simp at this
      simp only [List.map_cons, List.filter_cons, dedupWinner]
      rw [if_pos (by simp), filter_winnerMap_none t hrestX]
      simp [groupGet?, beq_vstr_vstr]
    · have hne : ¬ (PyObj.vstr s' = PyObj.vstr X) := by
        intro hc
        exact h (by injection hc)
      simp only [List.map_cons, List.filter_cons, dedupWinner]
      rw [if_neg (by simpa using hne)]
      have := ih X (fun p hp => hg p (List.mem_cons_of_mem _ hp)) hrest
      rw [this]
      simp [groupGet?, beq_vstr_vstr, h]

theorem foldl_max_stay (key : PyObj → ℤ) :
    ∀ (l : List PyObj) (acc : PyObj), (∀ y ∈ l, key y ≤ key acc) →
    l.foldl (fun best y => if key y > key best then y else best) acc = acc := by
  intro l
  induction l with
  | nil => intro acc _; rfl
  | cons x xs ih =>
    intro acc h
    have hx : key x ≤ key acc := h x (List.mem_cons_self _ _)
    simp only [List.foldl_cons]
    rw [if_neg (by omega)]
    exact ih acc (fun y hy => h y (List.mem_cons_of_mem _ hy))

theorem foldl_max_mid (key : PyObj → ℤ) :
    ∀ (l1 : List PyObj) (acc b : PyObj) (l2 : List PyObj),
    key acc < key b → (∀ y ∈ l1, key y < key b) → (∀ y ∈ l2, key y ≤ key b) →
    (l1 ++ b :: l2).foldl (fun best y => if key y > key best then y else best) acc = b := by
  intro l1
  induction l1 with
  | nil =>
    intro acc b l2 hacc _ h2
    simp only [List.nil_append, List.foldl_cons]
    rw [if_pos (by omega)]
    exact foldl_max_stay key l2 b h2
  | cons x l1' ih =>
    intro acc b l2 hacc h1 h2
    have hx : key x < key b := h1 x (List.mem_cons_self _ _)
    simp only [List.cons_append, List.foldl_cons]
    by_cases hcmp : key x > key acc
    · rw [if_pos hcmp]
      exact ih x b l2 hx (fun y hy => h1 y (List.mem_cons_of_mem _ hy)) h2
    · rw [if_neg hcmp]
      exact ih acc b l2 hacc (fun y hy => h1 y (List.mem_cons_of_mem _ hy)) h2

theorem maxByFirst_first_max (key : PyObj → ℤ) (l1 : List PyObj) (b : PyObj)
    (l2 : List PyObj) (h1 : ∀ y ∈ l1, key y < key b) (h2 : ∀ y ∈ l2, key y ≤ key b) :
    maxByFirst key (l1 ++ b :: l2) = some b := by
  cases l1 with
  | nil =>
    simp only [List.nil_append, maxByFirst]
    rw [foldl_max_stay key l2 b h2]
  | cons x l1' =>
    simp only [List.cons_append, maxByFirst]
    rw [foldl_max_mid key l1' x b l2 (h1 x (List.mem_cons_self _ _))
      (fun y hy => h1 y (List.mem_cons_of_mem _ hy)) h2]

theorem dedup_lookup (items : List PyObj) (t X : String)
    (hstr : ∀ it ∈ items, itemStrKeyed it = true) :
    dictGet? (deduplicate_data_items (.vlist items) t) (.vstr X) =
      (maxByFirst tsKey (selectedItems items X)).map (fun b => transformItem b t) := by
  cases items with
  | nil => simp [deduplicate_data_items, PyObj.truthy, selectedItems, maxByFirst, dictGet?]
  | cons x xs =>
    have htr : (PyObj.vlist (x :: xs)).truthy = true := by simp [PyObj.truthy]
    simp only [deduplicate_data_items, htr, Bool.not_true, Bool.false_eq_true, if_false]
    obtain ⟨hsk, hne, hpw⟩ := foldl_groupStep_inv (x :: xs) [] hstr
      (fun p hp => absurd hp (List.not_mem_nil p)) (fun p hp => absurd hp (List.not_mem_nil p))
      (List.Pairwise.nil)
    rw [foldl_resStep_map t _ [] hne hpw (fun p _ q hq => absurd hq (List.not_mem_nil q)),
      List.nil_append, dictGet?_winnerMap t,
      foldl_groupStep_get (x :: xs) [] X hstr (fun p hp => absurd hp (List.not_mem_nil p))]
    simp only [groupGet?]
    cases hsel : selectedItems (x :: xs) X with
    | nil => simp [optCat, maxByFirst]
    | cons y ys => simp [optCat, maxByFirst]

theorem dedup_filter (items : List PyObj) (t X : String)
    (hstr : ∀ it ∈ items, itemStrKeyed it = true) :
    (deduplicate_data_items (.vlist items) t).filter (fun p => p.1 = PyObj.vstr X) =
      (match maxByFirst tsKey (selectedItems items X) with
       | some b => [(PyObj.vstr X, transformItem b t)]
       | none => []) := by
  cases items with
  | nil => simp [deduplicate_data_items, PyObj.truthy, selectedItems, maxByFirst]
  | cons x xs =>
    have htr : (PyObj.vlist (x :: xs)).truthy = true := by simp [PyObj.truthy]
    simp only [deduplicate_data_items, htr, Bool.not_true, Bool.false_eq_true, if_false]
    obtain ⟨hsk, hne, hpw⟩ := foldl_groupStep_inv (x :: xs) [] hstr
      (fun p hp => absurd hp (List.not_mem_nil p)) (fun p hp => absurd hp (List.not_mem_nil p))
      (List.Pairwise.nil)
    rw [foldl_resStep_map t _ [] hne hpw (fun p _ q hq => absurd hq (List.not_mem_nil q)),
      List.nil_append, filter_winnerMap t _ X hsk hpw,
      foldl_groupStep_get (x :: xs) [] X hstr (fun p hp => absurd hp (List.not_mem_nil p))]
    simp only [groupGet?]
    cases hsel : selectedItems (x :: xs) X with
    | nil => simp [optCat, maxByFirst]
    | cons y ys => simp [optCat, maxByFirst]

theorem dictGet?_all_ne {d : List (PyObj × PyObj)} {k : PyObj}
    (h : ∀ q ∈ d, PyObj.beq q.1 k = false) : dictGet? d k = none := by
  induction d with
  | nil => rfl
  | cons q r ih =>
    obtain ⟨k', v⟩ := q
    simp only [dictGet?]
    rw [if_neg (by simpa using h (k', v) (List.mem_cons_self _ _))]
    exact ih (fun p hp => h p (List.mem_cons_of_mem _ hp))

theorem dictGet?_mem {d : List (PyObj × PyObj)} {k v : PyObj}
    (h : dictGet? d k = some v) : ∃ k', (k', v) ∈ d := by
  induction d with
  | nil => simp [dictGet?] at h
  | cons q r ih =>
    obtain ⟨k', v'⟩ := q
    simp only [dictGet?] at h
    by_cases hb : PyObj.beq k' k = true
    · rw [if_pos hb] at h
      exact ⟨k', by simp [← Option.some_inj.mp h]⟩
    · rw [if_neg hb] at h
      obtain ⟨k'', hk''⟩ := ih h
      exact ⟨k'', List.mem_cons_of_mem _ hk''⟩

theorem transform_no_dataItemId (b : PyObj) (t : String) :
    dictGet? (transformItem b t).asDict (.vstr "dataItemId") = none := by
  apply dictGet?_all_ne
  intro q hq
  unfold transformItem at hq
  by_cases ht : t = "conditions"
  · rw [if_pos ht] at hq
    simp only [PyObj.asDict] at hq
    rcases List.mem_append.mp hq with hq | hq
    · rcases List.mem_cons.mp hq with rfl | hq
      · simp [PyObj.beq]
      · rcases List.mem_singleton.mp hq with rfl
        simp [PyObj.beq]
    · rcases List.mem_cons.mp hq with rfl | hq
      · simp [PyObj.beq]
      · rcases List.mem_singleton.mp hq with rfl
        simp [PyObj.beq]
  · rw [if_neg ht] at hq
    simp only [PyObj.asDict] at hq
    rcases List.mem_append.mp hq with hq | hq
    · rcases List.mem_append.mp hq with hq | hq
      · rcases List.mem_append.mp hq with hq | hq
        · rcases List.mem_append.mp hq with hq | hq
          · rcases List.mem_append.mp hq with hq | hq
            · rcases List.mem_cons.mp hq with rfl | hq
              · simp [PyObj.beq]
              · rcases List.mem_singleton.mp hq with rfl
                simp [PyObj.beq]
            · rcases List.mem_singleton.mp hq with rfl
              simp [PyObj.beq]
          · split at hq
            · rcases List.mem_singleton.mp hq with rfl
              simp [PyObj.beq]
            · exact absurd hq (List.not_mem_nil q)
        · split at hq
          · rcases List.mem_singleton.mp hq with rfl
            simp [PyObj.beq]
          · exact absurd hq (List.not_mem_nil q)
      · split at hq
        · exact absurd hq (List.not_mem_nil q)
        · rcases List.mem_singleton.mp hq with rfl
          simp [PyObj.beq]
    · split at hq
      · exact absurd hq (List.not_mem_nil q)
      · rcases List.mem_singleton.mp hq with rfl
        simp [PyObj.beq]

theorem dictSet_mem_val {d : List (PyObj × PyObj)} {k v : PyObj}
    {q : PyObj × PyObj} (h : q ∈ dictSet d k v) : q ∈ d ∨ q.2 = v := by
  induction d with
  | nil =>
    simp only [dictSet, List.mem_singleton] at h
    right
    rw [h]
  | cons p r ih =>
    obtain ⟨k', v'⟩ := p
    simp only [dictSet] at h
    by_cases hb : PyObj.beq k' k = true
    · rw [if_pos hb] at h
      rcases List.mem_cons.mp h with h | h
      · right
        rw [h]
      · left
        exact List.mem_cons_of_mem _ h
    · rw [if_neg hb] at h
      rcases List.mem_cons.mp h with h | h
      · left
        rw [h]
        exact List.mem_cons_self _ _
      · rcases ih h with h' | h'
        · exact Or.inl (List.mem_cons_of_mem _ h')
        · exact Or.inr h'

theorem foldl_resStep_vals (t : String) :
    ∀ (grouped : List (PyObj × List PyObj)) (res : List (PyObj × PyObj)),
    (∀ p ∈ res, ∃ b, p.2 = transformItem b t) →
    ∀ p ∈ grouped.foldl (resStep t) res, ∃ b, p.2 = transformItem b t := by
  intro grouped
  induction grouped with
  | nil => intro res h; exact h
  | cons kl rest ih =>
    intro res h
    simp only [List.foldl_cons]
    apply ih
    intro p hp
    unfold resStep at hp
    cases hm : maxByFirst tsKey kl.2 with
    | none =>
      rw [hm] at hp
      exact h p hp
    | some latest =>
      rw [hm] at hp
      rcases dictSet_mem_val hp with h' | h'
      · exact h p h'
      · exact ⟨latest, h'⟩

theorem dedup_values (items : PyObj) (t : String) :
    ∀ p ∈ deduplicate_data_items items t, ∃ b, p.2 = transformItem b t := by
  unfold deduplicate_data_items
  by_cases htr : items.truthy = true
  · simp only [htr, Bool.not_true, Bool.false_eq_true, if_false]
    exact foldl_resStep_vals t _ [] (fun p hp => absurd hp (List.not_mem_nil p))
  · simp only [Bool.not_eq_true] at htr
    simp [htr]

theorem dedup_refeed_entry_none {r : List (PyObj × PyObj)} {t : String}
    (hvals : ∀ p ∈ r, ∃ b, p.2 = transformItem b t) :
    itemEntry (.vdict r) = none := by
  have hdii : dictGetD (dictGetD r (.vstr "@attributes") (.vdict [])).asDict
      (.vstr "dataItemId") .vnone = .vnone := by
    unfold dictGetD
    cases hga : dictGet? r (.vstr "@attributes") with
    | none => simp [PyObj.asDict, dictGet?]
    | some v =>
      obtain ⟨k', hk'⟩ := dictGet?_mem hga
      obtain ⟨b, hb⟩ := hvals (k', v) hk'
      simp only at hb
      simp [hb, transform_no_dataItemId]
  simp only [itemEntry, hdii]
  simp [PyObj.truthy]

theorem dedup_dedup_empty (items : PyObj) (t t' : String) :
    deduplicate_data_items (.vdict (deduplicate_data_items items t)) t' = [] := by
  cases hr : deduplicate_data_items items t with
  | nil =>
    simp [deduplicate_data_items, PyObj.truthy]
  | cons p r =>
    have hvals : ∀ q ∈ p :: r, ∃ b, q.2 = transformItem b t := by
      intro q hq
      exact dedup_values items t q (hr ▸ hq)
    have hie : itemEntry (.vdict (p :: r)) = none := dedup_refeed_entry_none hvals
    have htr : (PyObj.vdict (p :: r)).truthy = true := by simp [PyObj.truthy]
    simp [deduplicate_data_items, htr, groupStep, hie]

/-- Does the raw item carry a truthy `dataItemId` in its attributes? -/
def hasDataItemId (e : PyObj) : Bool :=
  (dictGetD (dictGetD e.asDict (.vstr "@attributes") (.vdict [])).asDict
    (.vstr "dataItemId") .vnone).truthy

/-- Is the item's `timestamp` attribute unusable: missing or falsy (the
`if timestamp_str:` guard fails) or a string `parse_iso` rejects (the
`except ValueError` path)? -/
def tsBad (e : PyObj) : Bool :=
  match dictGetD (dictGetD e.asDict (.vstr "@attributes") (.vdict [])).asDict
      (.vstr "timestamp") .vnone with
  | .vstr s => s = "" || (parse_iso s).isNone
  | v => !v.truthy

theorem asDict_vdict (d : List (PyObj × PyObj)) : (PyObj.vdict d).asDict = d := rfl

theorem tsBad_itemEntry_none {d : List (PyObj × PyObj)}
    (hbad : tsBad (.vdict d) = true) : itemEntry (.vdict d) = none := by
  unfold tsBad at hbad
  rw [asDict_vdict] at hbad
  simp only [itemEntry]
  by_cases hdii : (dictGetD (dictGetD d (.vstr "@attributes") (.vdict [])).asDict
      (.vstr "dataItemId") .vnone).truthy = true
  · rw [if_pos hdii]
    cases hts : dictGetD (dictGetD d (.vstr "@attributes") (.vdict [])).asDict
        (.vstr "timestamp") .vnone with
    | vstr s =>
      rw [hts] at hbad
      simp only [Bool.or_eq_true, decide_eq_true_eq] at hbad
      rcases hbad with hbad | hbad
      · simp [hbad]
      · rcases Option.isNone_iff_eq_none.mp hbad with hpn
        by_cases hs : s = ""
        · simp [hs]
        · simp [hs, hpn]
    | vnone => simp
    | vint n => simp
    | vfloat q => simp
    | vdt x => simp
    | vdict x => simp
    | vlist x => simp
  · rw [if_neg hdii]

theorem dedup_skip_bad (pre post : List PyObj) (d : List (PyObj × PyObj))
    (t : String) (hie : itemEntry (.vdict d) = none) :
    deduplicate_data_items (.vlist (pre ++ PyObj.vdict d :: post)) t =
      deduplicate_data_items (.vlist (pre ++ post)) t := by
  have hfold : (pre ++ PyObj.vdict d :: post).foldl groupStep [] =
      (pre ++ post).foldl groupStep [] := by
    rw [List.foldl_append, List.foldl_cons, List.foldl_append]
    have : groupStep (pre.foldl groupStep []) (PyObj.vdict d) = pre.foldl groupStep [] := by
      simp [groupStep, hie]
    rw [this]
  have htr : (PyObj.vlist (pre ++ PyObj.vdict d :: post)).truthy = true := by
    simp [PyObj.truthy]
  cases hpp : pre ++ post with
  | nil =>
    rcases List.append_eq_nil.mp hpp with ⟨hp1, hp2⟩
    subst hp1
    subst hp2
    simp [deduplicate_data_items, PyObj.truthy, groupStep, hie]
  | cons y ys =>
    have htr2 : (PyObj.vlist (y :: ys)).truthy = true := by
      simp [PyObj.truthy]
    simp only [deduplicate_data_items, htr, htr2, Bool.not_true, Bool.false_eq_true, if_false]
    rw [hfold, hpp]

theorem getS?_setS_self {v : Type} (d : List (String × v)) (k : String) (x : v) :
    getS? (setS d k x) k = some x := by
  induction d with
  | nil => simp [setS, getS?]
  | cons p r ih =>
    obtain ⟨k', x'⟩ := p
    by_cases h : k' = k
    · simp [setS, getS?, h]
    · simp [setS, getS?, h, ih]

theorem getS?_setS_other {v : Type} (d : List (String × v)) (k k' : String) (x : v)
    (h : k' ≠ k) : getS? (setS d k x) k' = getS? d k' := by
  induction d with
  | nil => simp [setS, getS?, Ne.symm h]
  | cons p r ih =>
    obtain ⟨k'', x''⟩ := p
    by_cases h2 : k'' = k
    · subst h2
      simp [setS, getS?, Ne.symm h]
    · simp [setS, getS?, h2, ih]

theorem getS?_not_mem {v : Type} {d : List (String × v)} {n : String}
    (h : n ∉ d.map Prod.fst) : getS? d n = none := by
  induction d with
  | nil => rfl
  | cons p r ih =>
    obtain ⟨k, x⟩ := p
    simp only [List.map_cons, List.mem_cons] at h
    push_neg at h
    simp [getS?, Ne.symm h.1, ih h.2]

theorem getS?_some_ne_nil {v : Type} {d : List (String × v)} {n : String} {x : v}
    (h : getS? d n = some x) : d ≠ [] := by
  intro hc
  subst hc
  simp [getS?] at h

theorem foldl_setS_get {v : Type} (f : Option v → v → v) :
    ∀ (new existing : List (String × v)) (n : String), (new.map Prod.fst).Nodup →
    getS? (new.foldl (fun merged nd => setS merged nd.1 (f (getS? merged nd.1) nd.2)) existing) n
      = match getS? new n with
        | some x => some (f (getS? existing n) x)
        | none => getS? existing n := by
  intro new
  induction new with
  | nil => intro existing n _; simp [getS?]
  | cons p rest ih =>
    intro existing n hn
    obtain ⟨k, x⟩ := p
    simp only [List.map_cons, List.nodup_cons] at hn
    obtain ⟨hk, hrest⟩ := hn
    simp only [List.foldl_cons]
    rw [ih (setS existing k (f (getS? existing k) x)) n hrest]
    by_cases h : k = n
    · subst h
      rw [getS?_not_mem hk]
      simp [getS?, getS?_setS_self]
    · have hns : getS? ((k, x) :: rest) n = getS? rest n := by
        simp [getS?, h]
      rw [hns, getS?_setS_other existing k n _ (Ne.symm h)]

theorem merge_conditions_get {γ : Type} (existing new : List (String × γ)) (n : String)
    (he : existing ≠ []) (hn : (new.map Prod.fst).Nodup) :
    getS? (merge_conditions existing new) n =
      match getS? new n with
      | some c => some c
      | none => getS? existing n := by
  unfold merge_conditions
  rw [if_neg (by simpa [List.isEmpty_iff] using he)]
  exact foldl_setS_get (fun _ x => x) new existing n hn

/-- The value written for one name by the `merge_samples` loop, as a
function of the existing entry. -/
def samplesUpd {α : Type} (o : Option (LV α)) (d : LV α) : LV α :=
  .list ((match o with
    | some ex => ex.toList
    | none => []) ++ d.toList)

/-- The value written for one component by the `merge_components` loop, as
a function of the existing entry. -/
def componentsUpd {α β γ : Type} (o : Option (Component α β γ))
    (c : Component α β γ) : Component α β γ :=
  match o with
  | some ex => merge_component_pair ex c
  | none => c

theorem merge_samples_get {α : Type} (existing new : List (String × LV α)) (n : String)
    (he : existing ≠ []) (hn : (new.map Prod.fst).Nodup) :
    getS? (merge_samples existing new) n =
      match getS? new n with
      | some nv => some (LV.list
          ((match getS? existing n with
            | some ex => ex.toList
            | none => []) ++ nv.toList))
      | none => getS? existing n := by
  unfold merge_samples
  rw [if_neg (by simpa [List.isEmpty_iff] using he)]
  have hfun : (fun (merged : List (String × LV α)) (nd : String × LV α) =>
      match getS? merged nd.1 with
      | none => setS merged nd.1 (LV.list nd.2.toList)
      | some ex => setS merged nd.1 (.list (ex.toList ++ nd.2.toList)))
    = (fun merged nd => setS merged nd.1 (samplesUpd (getS? merged nd.1) nd.2)) := by
    funext merged nd
    cases getS? merged nd.1 <;> simp [samplesUpd]
  rw [hfun, foldl_setS_get samplesUpd new existing n hn]
  cases getS? new n <;> cases getS? existing n <;> simp [samplesUpd]

theorem merge_events_eq_samples {α : Type} :
    (merge_events (α := α)) = merge_samples := rfl

theorem merge_components_get {α β γ : Type}
    (existing new : List (String × Component α β γ)) (cid : String)
    (he : existing ≠ []) (hn : (new.map Prod.fst).Nodup) :
    getS? (merge_components existing new) cid =
      match getS? new cid with
      | some nc => some (match getS? existing cid with
          | some ec => merge_component_pair ec nc
          | none => nc)
      | none => getS? existing cid := by
  unfold merge_components
  rw [if_neg (by simpa [List.isEmpty_iff] using he)]
  have hfun : (fun (merged : List (String × Component α β γ))
      (nd : String × Component α β γ) =>
      match getS? merged nd.1 with
      | none => setS merged nd.1 nd.2
      | some ex => setS merged nd.1 (merge_component_pair ex nd.2))
    = (fun merged nd => setS merged nd.1 (componentsUpd (getS? merged nd.1) nd.2)) := by
    funext merged nd
    cases getS? merged nd.1 <;> simp [componentsUpd]
  rw [hfun, foldl_setS_get componentsUpd new existing cid hn]
  cases getS? new cid <;> cases getS? existing cid <;> simp [componentsUpd]

/-- The condition entry of a merged document for a component id and a
data-item name, when the whole path exists. -/
def docCondition {α β γ : Type} (m : MachineDoc α β γ) (cid n : String) : Option γ :=
  match m.device with
  | some dev =>
    match dev.components with
    | some cs =>
      match getS? cs cid with
      | some comp =>
        match comp.conditions with
        | some conds => getS? conds n
        | none => none
      | none => none
    | none => none
  | none => none

/-- The sample entry of a merged document for a component id and a
data-item name, when the whole path exists. -/
def docSamples {α β γ : Type} (m : MachineDoc α β γ) (cid n : String) : Option (LV α) :=
  match m.device with
  | some dev =>
    match dev.components with
    | some cs =>
      match getS? cs cid with
      | some comp =>
        match comp.samples with
        | some s => getS? s n
        | none => none
      | none => none
    | none => none
  | none => none

/-- The event entry of a merged document for a component id and a data-item
name, when the whole path exists. -/
def docEvents {α β γ : Type} (m : MachineDoc α β γ) (cid n : String) : Option (LV α) :=
  match m.device with
  | some dev =>
    match dev.components with
    | some cs =>
      match getS? cs cid with
      | some comp =>
        match comp.events with
        | some s => getS? s n
        | none => none
      | none => none
    | none => none
  | none => none

theorem merge_device_components {α β γ : Type} {ex nd : MachineDoc α β γ}
    {edev ndev : Device α β γ}
    {ecs ncs : List (String × Component α β γ)}
    (hexd : ex.device = some edev) (hecs : edev.components = some ecs)
    (hndd : nd.device = some ndev) (hncs : ndev.components = some ncs) :
    (merge_machine_data (some ex) nd).device =
      some { edev with components := some (merge_components ecs ncs) } := by
  simp [merge_machine_data, hexd, hecs, hndd, hncs]

theorem merge_doc_samples_lemma {α β γ : Type} {ex nd : MachineDoc α β γ}
    {edev ndev : Device α β γ}
    {ecs ncs : List (String × Component α β γ)}
    {ecomp ncomp : Component α β γ}
    {es ns : List (String × LV α)} {evl nvl : LV α} {cid n : String}
    (hexd : ex.device = some edev) (hecs : edev.components = some ecs)
    (hecomp : getS? ecs cid = some ecomp) (hes : ecomp.samples = some es)
    (hevl : getS? es n = some evl)
    (hndd : nd.device = some ndev) (hncs : ndev.components = some ncs)
    (hncsN : (ncs.map Prod.fst).Nodup)
    (hncomp : getS? ncs cid = some ncomp) (hns : ncomp.samples = some ns)
    (hnsN : (ns.map Prod.fst).Nodup)
    (hnvl : getS? ns n = some nvl) :
    (merge_machine_data (some ex) nd).device =
      some { edev with components := some (merge_components ecs ncs) } ∧
    getS? (merge_components ecs ncs) cid = some (merge_component_pair ecomp ncomp) ∧
    (merge_component_pair ecomp ncomp).samples = some (merge_samples es ns) ∧
    getS? (merge_samples es ns) n = some (LV.list (evl.toList ++ nvl.toList)) ∧
    docSamples (merge_machine_data (some ex) nd) cid n =
      some (LV.list (evl.toList ++ nvl.toList)) := by
  have hdev := merge_device_components hexd hecs hndd hncs
  have hcomp : getS? (merge_components ecs ncs) cid =
      some (merge_component_pair ecomp ncomp) := by
    rw [merge_components_get ecs ncs cid (getS?_some_ne_nil hecomp) hncsN, hncomp, hecomp]
  have hsmp : (merge_component_pair ecomp ncomp).samples = some (merge_samples es ns) := by
    simp [merge_component_pair, hes, hns]
  have hget : getS? (merge_samples es ns) n = some (LV.list (evl.toList ++ nvl.toList)) := by
    rw [merge_samples_get es ns n (getS?_some_ne_nil hevl) hnsN, hnvl, hevl]
  exact ⟨hdev, hcomp, hsmp, hget, by simp [docSamples, hdev, hcomp, hsmp, hget]⟩

theorem merge_doc_events_lemma {α β γ : Type} {ex nd : MachineDoc α β γ}
    {edev ndev : Device α β γ}
    {ecs ncs : List (String × Component α β γ)}
    {ecomp ncomp : Component α β γ}
    {es ns : List (String × LV α)} {evl nvl : LV α} {cid n : String}
    (hexd : ex.device = some edev) (hecs : edev.components = some ecs)
    (hecomp : getS? ecs cid = some ecomp) (hes : ecomp.events = some es)
    (hevl : getS? es n = some evl)
    (hndd : nd.device = some ndev) (hncs : ndev.components = some ncs)
    (hncsN : (ncs.map Prod.fst).Nodup)
    (hncomp : getS? ncs cid = some ncomp) (hns : ncomp.events = some ns)
    (hnsN : (ns.map Prod.fst).Nodup)
    (hnvl : getS? ns n = some nvl) :
    (merge_machine_data (some ex) nd).device =
      some { edev with components := some (merge_components ecs ncs) } ∧
    getS? (merge_components ecs ncs) cid = some (merge_component_pair ecomp ncomp) ∧
    (merge_component_pair ecomp ncomp).events = some (merge_events es ns) ∧
    getS? (merge_events es ns) n = some (LV.list (evl.toList ++ nvl.toList)) ∧
    docEvents (merge_machine_data (some ex) nd) cid n =
      some (LV.list (evl.toList ++ nvl.toList)) := by
  have hdev := merge_device_components hexd hecs hndd hncs
  have hcomp : getS? (merge_components ecs ncs) cid =
      some (merge_component_pair ecomp ncomp) := by
    rw [merge_components_get ecs ncs cid (getS?_some_ne_nil hecomp) hncsN, hncomp, hecomp]
  have hsmp : (merge_component_pair ecomp ncomp).events = some (merge_events es ns) := by
    simp [merge_component_pair, hes, hns]
  have hget : getS? (merge_events es ns) n = some (LV.list (evl.toList ++ nvl.toList)) := by
    rw [merge_events_eq_samples,
      merge_samples_get es ns n (getS?_some_ne_nil hevl) hnsN, hnvl, hevl]
  exact ⟨hdev, hcomp, hsmp, hget, by simp [docEvents, hdev, hcomp, hsmp, hget]⟩

theorem merge_doc_conditions_lemma {α β γ : Type} {ex nd : MachineDoc α β γ}
    {edev ndev : Device α β γ}
    {ecs ncs : List (String × Component α β γ)}
    {ecomp ncomp : Component α β γ}
    {econd ncond : List (String × γ)} {c1 c2 : γ} {cid n : String}
    (hexd : ex.device = some edev) (hecs : edev.components = some ecs)
    (hecomp : getS? ecs cid = some ecomp) (hec : ecomp.conditions = some econd)
    (hc1 : getS? econd n = some c1)
    (hndd : nd.device = some ndev) (hncs : ndev.components = some ncs)
    (hncsN : (ncs.map Prod.fst).Nodup)
    (hncomp : getS? ncs cid = some ncomp) (hnc : ncomp.conditions = some ncond)
    (hncondN : (ncond.map Prod.fst).Nodup)
    (hc2 : getS? ncond n = some c2) :
    docCondition (merge_machine_data (some ex) nd) cid n = some c2 := by
  have hdev := merge_device_components hexd hecs hndd hncs
  have hcomp : getS? (merge_components ecs ncs) cid =
      some (merge_component_pair ecomp ncomp) := by
    rw [merge_components_get ecs ncs cid (getS?_some_ne_nil hecomp) hncsN, hncomp, hecomp]
  have hcnd : (merge_component_pair ecomp ncomp).conditions =
      some (merge_conditions econd ncond) := by
    simp [merge_component_pair, hec, hnc]
  have hget : getS? (merge_conditions econd ncond) n = some c2 := by
    rw [merge_conditions_get econd ncond n (getS?_some_ne_nil hc1) hncondN, hc2]
  simp [docCondition, hdev, hcomp, hcnd, hget]

theorem mem_split_first {b : PyObj} : ∀ {l : List PyObj}, b ∈ l →
    ∃ l1 l2, l = l1 ++ b :: l2 ∧ b ∉ l1 := by
  intro l h
  induction l with
  | nil => simp at h
  | cons x xs ih =>
    by_cases hx : x = b
    · exact ⟨[], xs, by rw [hx]; rfl, by simp⟩
    · rcases List.mem_cons.mp h with h' | h'
      · exact absurd h'.symm hx
      · obtain ⟨l1, l2, he, hn⟩ := ih h'
        refine ⟨x :: l1, l2, by rw [he]; simp, ?_⟩
        intro hc
        rcases List.mem_cons.mp hc with hc | hc
        · exact hx hc.symm
        · exact hn hc

theorem beq_vstr_right {k : PyObj} {s : String} (h : PyObj.beq k (.vstr s) = true) :
    k = .vstr s := by
  cases k <;> simp [PyObj.beq] at h
  rw [h]

theorem dictDel_get_vstr_ne (d : List (PyObj × PyObj)) (a b : String) (h : a ≠ b) :
    dictGet? (dictDel d (.vstr a)) (.vstr b) = dictGet? d (.vstr b) := by
  induction d with
  | nil => rfl
  | cons p r ih =>
    obtain ⟨k, v⟩ := p
    by_cases hb : PyObj.beq k (.vstr a) = true
    · have hk := beq_vstr_right hb
      subst hk
      simp [dictDel, dictGet?, beq_vstr_vstr, h]
    · simp [dictDel, dictGet?, hb, ih]

theorem transform_timestamp (b : PyObj) (t : String) :
    dictGet? (transformItem b t).asDict (.vstr "timestamp") =
      some (dictGetD (dictGetD b.asDict (.vstr "@attributes") (.vdict [])).asDict
        (.vstr "timestamp") .vnone) := by
  have hdel : dictGetD (dictDel b.asDict (.vstr "_parsed_timestamp"))
      (.vstr "@attributes") (.vdict []) =
      dictGetD b.asDict (.vstr "@attributes") (.vdict []) := by
    unfold dictGetD
    rw [dictDel_get_vstr_ne b.asDict "_parsed_timestamp" "@attributes" (by decide)]
  unfold transformItem
  by_cases ht : t = "conditions"
  · rw [if_pos ht, asDict_vdict]
    simp only [List.cons_append, List.nil_append]
    simp [dictGet?, beq_vstr_vstr, hdel]
  · rw [if_neg ht, asDict_vdict]
    simp only [List.cons_append, List.nil_append]
    simp [dictGet?, beq_vstr_vstr, hdel]

theorem transform_value (b : PyObj) (t : String) (ht : t ≠ "conditions") :
    dictGet? (transformItem b t).asDict (.vstr "value") =
      some (convert_value (dictGetD b.asDict (.vstr "#text") .vnone)) := by
  have hdel : dictGetD (dictDel b.asDict (.vstr "_parsed_timestamp"))
      (.vstr "#text") .vnone = dictGetD b.asDict (.vstr "#text") .vnone := by
    unfold dictGetD
    rw [dictDel_get_vstr_ne b.asDict "_parsed_timestamp" "#text" (by decide)]
  unfold transformItem
  rw [if_neg ht, asDict_vdict]
  simp only [List.cons_append, List.nil_append]
  simp [dictGet?, beq_vstr_vstr, hdel]

/-- A raw sample/event item as the converter hands it to the deduplicator:
coerced attributes (`dataItemId`, `timestamp`, `sequence`) and the text. -/
def rawSample (id ts txt : String) (seq : ℤ) : PyObj :=
  .vdict [((.vstr "@attributes" : PyObj), .vdict
      [((.vstr "dataItemId" : PyObj), .vstr id),
       ((.vstr "timestamp" : PyObj), .vstr ts),
       ((.vstr "sequence" : PyObj), .vint seq)]),
    ((.vstr "#text" : PyObj), .vstr txt)]

/-- The same item after the grouping loop stored its parsed timestamp. -/
def procSample (id ts txt : String) (seq pt : ℤ) : PyObj :=
  .vdict [((.vstr "@attributes" : PyObj), .vdict
      [((.vstr "dataItemId" : PyObj), .vstr id),
       ((.vstr "timestamp" : PyObj), .vstr ts),
       ((.vstr "sequence" : PyObj), .vint seq)]),
    ((.vstr "#text" : PyObj), .vstr txt),
    ((.vstr "_parsed_timestamp" : PyObj), .vdt pt)]

/-- Concrete witness timestamps T1 < T2 < T3. -/
def wT1 : String := "2024-01-01T00:00:01Z"

/-- Second witness timestamp. -/
def wT2 : String := "2024-01-01T00:00:02Z"

/-- Third witness timestamp. -/
def wT3 : String := "2024-01-01T00:00:03Z"

/-- Parsed value of `wT1` on the microsecond scale. -/
def wTS1 : ℤ := 63839750401000000

/-- Parsed value of `wT3` on the microsecond scale. -/
def wTS3 : ℤ := 63839750403000000

/-- C1: for every raw item list containing several entries that share one
`dataItemId`, each with a parseable timestamp, the Deduplicator returns
exactly one entry for that identifier — keyed by the declared identifier —
and the entry is the shaped version of the entry with the strictly
greatest timestamp, so its `timestamp` is that entry's timestamp attribute
and (for samples/events) its `value` is that entry's coerced text. -/
theorem C1_dedup_latest_wins (items : List PyObj) (t X : String) (best : PyObj)
    (hstr : ∀ it ∈ items, itemStrKeyed it = true)
    (hmem : best ∈ selectedItems items X)
    (hmax : ∀ o ∈ selectedItems items X, o ≠ best → tsKey o < tsKey best) :
    dictGet? (deduplicate_data_items (.vlist items) t) (.vstr X)
      = some (transformItem best t) ∧
    (deduplicate_data_items (.vlist items) t).filter (fun p => p.1 = PyObj.vstr X)
      = [(PyObj.vstr X, transformItem best t)] ∧
    dictGet? (transformItem best t).asDict (.vstr "timestamp")
      = some (dictGetD (dictGetD best.asDict (.vstr "@attributes") (.vdict [])).asDict
          (.vstr "timestamp") .vnone) ∧
    (t ≠ "conditions" → dictGet? (transformItem best t).asDict (.vstr "value")
      = some (convert_value (dictGetD best.asDict (.vstr "#text") .vnone))) := by
  obtain ⟨l1, l2, hsel, hnotin⟩ := mem_split_first hmem
  have h1 : ∀ o ∈ l1, tsKey o < tsKey best := by
    intro o ho
    refine hmax o (by rw [hsel]; exact List.mem_append_left _ ho) ?_
    intro hc
    exact hnotin (hc ▸ ho)
  have h2 : ∀ o ∈ l2, tsKey o ≤ tsKey best := by
    intro o ho
    by_cases hc : o = best
    · rw [hc]
    · exact le_of_lt (hmax o
        (by rw [hsel]; exact List.mem_append_right _ (List.mem_cons_of_mem _ ho)) hc)
  have hm : maxByFirst tsKey (selectedItems items X) = some best := by
    rw [hsel]
    exact maxByFirst_first_max tsKey l1 best l2 h1 h2
  refine ⟨?_, ?_, transform_timestamp best t, fun ht => transform_value best t ht⟩
  · rw [dedup_lookup items t X hstr, hm]
    rfl
  · rw [dedup_filter items t X hstr, hm]

/-- Witness for C1: three Samples sharing id `X1` at T1 < T2 < T3 plus an
unrelated id; the `X1` result is the T3 entry, carrying T3's timestamp and
value 102, keyed by the id. -/
theorem C1_dedup_latest_wins_witness :
    dictGet? (deduplicate_data_items (.vlist [rawSample "X1" wT1 "100" 11,
        rawSample "X1" wT2 "101" 12, rawSample "Z9" wT1 "7" 13,
        rawSample "X1" wT3 "102" 14]) "samples") (.vstr "X1")
      = some (transformItem (procSample "X1" wT3 "102" 14 wTS3) "samples") ∧
    transformItem (procSample "X1" wT3 "102" 14 wTS3) "samples"
      = .vdict [((.vstr "timestamp" : PyObj), .vstr wT3),
          ((.vstr "sequence" : PyObj), .vint 14),
          ((.vstr "value" : PyObj), .vint 102)] :=
  ⟨(C1_dedup_latest_wins [rawSample "X1" wT1 "100" 11, rawSample "X1" wT2 "101" 12,
      rawSample "Z9" wT1 "7" 13, rawSample "X1" wT3 "102" 14] "samples" "X1"
      (procSample "X1" wT3 "102" 14 wTS3)
      (by decide) (by decide) (by decide)).1, by decide⟩

/-- C4 counterexample: two entries share id `X1` and an identical
timestamp; the winner is the FIRST entry in document order (value 1), not
the shaped last entry (value 2) the claim predicts. -/
theorem C4_counterexample :
    dictGet? (deduplicate_data_items (.vlist [rawSample "X1" wT1 "1" 21,
        rawSample "X1" wT1 "2" 22]) "samples") (.vstr "X1")
      = some (.vdict [((.vstr "timestamp" : PyObj), .vstr wT1),
          ((.vstr "sequence" : PyObj), .vint 21),
          ((.vstr "value" : PyObj), .vint 1)]) ∧
    dictGet? (deduplicate_data_items (.vlist [rawSample "X1" wT1 "1" 21,
        rawSample "X1" wT1 "2" 22]) "samples") (.vstr "X1")
      ≠ some (transformItem (procSample "X1" wT1 "2" 22 wTS1) "samples") := by
  decide

/-- C4 (amended): when several entries share one identifier, the winner is
the first entry in document order among those with the (weakly) greatest
parsed timestamp — Python's `max` keeps the earliest maximum on ties, so
on an exact timestamp tie the FIRST entry encountered wins, not the last. -/
theorem C4_dedup_tie_first_wins (items : List PyObj) (t X : String)
    (l1 : List PyObj) (b : PyObj) (l2 : List PyObj)
    (hstr : ∀ it ∈ items, itemStrKeyed it = true)
    (hsel : selectedItems items X = l1 ++ b :: l2)
    (h1 : ∀ o ∈ l1, tsKey o < tsKey b)
    (h2 : ∀ o ∈ l2, tsKey o ≤ tsKey b) :
    dictGet? (deduplicate_data_items (.vlist items) t) (.vstr X)
      = some (transformItem b t) := by
  rw [dedup_lookup items t X hstr, hsel, maxByFirst_first_max tsKey l1 b l2 h1 h2]
  rfl

/-- Witness for the amended C4: on the concrete tie the first entry
(value 1) wins. -/
theorem C4_dedup_tie_first_wins_witness :
    dictGet? (deduplicate_data_items (.vlist [rawSample "X1" wT1 "1" 21,
        rawSample "X1" wT1 "2" 22]) "samples") (.vstr "X1")
      = some (transformItem (procSample "X1" wT1 "1" 21 wTS1) "samples") :=
  C4_dedup_tie_first_wins [rawSample "X1" wT1 "1" 21, rawSample "X1" wT1 "2" 22]
    "samples" "X1" [] (procSample "X1" wT1 "1" 21 wTS1)
    [procSample "X1" wT1 "2" 22 wTS1]
    (by decide) (by decide) (by decide) (by decide)

/-- C8 counterexample: deduplicating the Deduplicator's own output does
not reproduce it — re-fed as a dict it collapses to the empty mapping. -/
theorem C8_counterexample :
    deduplicate_data_items (.vdict (deduplicate_data_items
        (.vlist [rawSample "X1" wT1 "1" 31]) "samples")) "samples"
      ≠ deduplicate_data_items (.vlist [rawSample "X1" wT1 "1" 31]) "samples" := by
  decide

/-- C8 (amended): applying the Deduplicator to the output of the
Deduplicator yields the EMPTY mapping for every input, not the same
output: the shaped entries no longer carry `@attributes`/`dataItemId`, so
the whole re-fed dict is skipped as a single invalid item. -/
theorem C8_dedup_refeed_empty (items : PyObj) (t t' : String) :
    deduplicate_data_items (.vdict (deduplicate_data_items items t)) t' = [] :=
  dedup_dedup_empty items t t'

/-- A raw item with a `dataItemId` but an unparseable timestamp. -/
def c10bad : List (PyObj × PyObj) :=
  [((.vstr "@attributes" : PyObj), .vdict
      [((.vstr "dataItemId" : PyObj), .vstr "X1"),
       ((.vstr "timestamp" : PyObj), .vstr "not-a-time"),
       ((.vstr "sequence" : PyObj), .vint 42)]),
    ((.vstr "#text" : PyObj), .vstr "999")]

/-- C10: an entry that carries a data-item identifier but whose timestamp
attribute is missing, falsy or unparseable is silently dropped — the
result is the same as if the entry were not in the list at all, so it
never appears in the mapping and never affects any winner. -/
theorem C10_bad_timestamp_item_ignored (pre post : List PyObj)
    (d : List (PyObj × PyObj)) (t : String)
    (hid : hasDataItemId (.vdict d) = true) (hbad : tsBad (.vdict d) = true) :
    deduplicate_data_items (.vlist (pre ++ PyObj.vdict d :: post)) t
      = deduplicate_data_items (.vlist (pre ++ post)) t :=
  dedup_skip_bad pre post d t (tsBad_itemEntry_none hbad)

/-- Witness for C10: a concrete unparseable-timestamp entry with id `X1`
between two valid items changes nothing. -/
theorem C10_bad_timestamp_item_ignored_witness :
    deduplicate_data_items (.vlist ([rawSample "X1" wT1 "1" 41]
        ++ PyObj.vdict c10bad :: [rawSample "X1" wT2 "2" 43])) "samples"
      = deduplicate_data_items
          (.vlist ([rawSample "X1" wT1 "1" 41] ++ [rawSample "X1" wT2 "2" 43])) "samples" :=
  C10_bad_timestamp_item_ignored [rawSample "X1" wT1 "1" 41]
    [rawSample "X1" wT2 "2" 43] c10bad "samples" (by decide) (by decide)

/-- C6: for every input string, value coercion returns an integer when the
string parses as an exactly integral number, a float when it parses as a
non-integral number, the original string when it does not parse as a
number, and the explicit unknown value `None` (never zero) exactly when
the input is the sentinel `"UNAVAILABLE"` or the empty string. -/
theorem C6_convert_value_cases (s : String) :
    (∀ q : ℚ, parseNumber? s = some q → q.den = 1 →
      convert_value (.vstr s) = .vint q.num) ∧
    (∀ q : ℚ, parseNumber? s = some q → q.den ≠ 1 →
      convert_value (.vstr s) = .vfloat q) ∧
    (parseNumber? s = none → s ≠ "UNAVAILABLE" → s ≠ "" →
      convert_value (.vstr s) = .vstr s) ∧
    (convert_value (.vstr s) = .vnone ↔ s = "UNAVAILABLE" ∨ s = "") := by
  have hU : parseNumber? "UNAVAILABLE" = none := by decide
  have hE : parseNumber? "" = none := by decide
  refine ⟨?_, ?_, ?_, ?_⟩
  · intro q hq hden
    by_cases h1 : s = "UNAVAILABLE"
    · rw [h1, hU] at hq
      cases hq
    by_cases h2 : s = ""
    · rw [h2, hE] at hq
      cases hq
    simp [convert_value, h1, h2, hq, hden]
  · intro q hq hden
    by_cases h1 : s = "UNAVAILABLE"
    · rw [h1, hU] at hq
      cases hq
    by_cases h2 : s = ""
    · rw [h2, hE] at hq
      cases hq
    simp [convert_value, h1, h2, hq, hden]
  · intro hq h1 h2
    simp [convert_value, h1, h2, hq]
  · constructor
    · intro h
      by_contra hc
      push_neg at hc
      obtain ⟨h1, h2⟩ := hc
      cases hp : parseNumber? s with
      | none => simp [convert_value, h1, h2, hp] at h
      | some q =>
        by_cases hden : q.den = 1
        · simp [convert_value, h1, h2, hp, hden] at h
        · simp [convert_value, h1, h2, hp, hden] at h
    · intro h
      rcases h with h | h <;> simp [convert_value, h]

/-- Witness for C6 at `"-7"` (integral), `"2.5"` (non-integral), `"abc"`
(non-numeric) and the two sentinel inputs. -/
theorem C6_convert_value_cases_witness :
    convert_value (.vstr "-7") = .vint (-7) ∧
    convert_value (.vstr "2.5") = .vfloat (mkRat 5 2) ∧
    convert_value (.vstr "abc") = .vstr "abc" ∧
    convert_value (.vstr "UNAVAILABLE") = .vnone ∧
    convert_value (.vstr "") = .vnone :=
  ⟨by rw [(C6_convert_value_cases "-7").1 (mkRat (-7) 1) (by decide) (by decide)]; decide,
   (C6_convert_value_cases "2.5").2.1 (mkRat 5 2) (by decide) (by decide),
   (C6_convert_value_cases "abc").2.2.1 (by decide) (by decide) (by decide),
   (C6_convert_value_cases "UNAVAILABLE").2.2.2.mpr (Or.inl rfl),
   (C6_convert_value_cases "").2.2.2.mpr (Or.inr rfl)⟩

/-- C2: whenever the existing and the incoming document both carry a
condition entry for the same component and the same data-item name, the
merge stores the incoming entry — unconditionally, with no timestamp
comparison: the existing entry `c1` does not appear in the conclusion. -/
theorem C2_merge_conditions_replace {α β γ : Type} {ex nd : MachineDoc α β γ}
    {edev ndev : Device α β γ} {ecs ncs : List (String × Component α β γ)}
    {ecomp ncomp : Component α β γ} {econd ncond : List (String × γ)}
    {c1 c2 : γ} {cid n : String}
    (hexd : ex.device = some edev) (hecs : edev.components = some ecs)
    (hecomp : getS? ecs cid = some ecomp) (hec : ecomp.conditions = some econd)
    (hc1 : getS? econd n = some c1)
    (hndd : nd.device = some ndev) (hncs : ndev.components = some ncs)
    (hncsN : (ncs.map Prod.fst).Nodup)
    (hncomp : getS? ncs cid = some ncomp) (hnc : ncomp.conditions = some ncond)
    (hncondN : (ncond.map Prod.fst).Nodup)
    (hc2 : getS? ncond n = some c2) :
    docCondition (merge_machine_data (some ex) nd) cid n = some c2 :=
  merge_doc_conditions_lemma hexd hecs hecomp hec hc1 hndd hncs hncsN hncomp hnc hncondN hc2

/-- The single component of the C2 witness documents, asserting state
`st` for data-item `temp`. -/
def c2comp (st : String) : Component ℤ String String :=
  ⟨some "Linear", some "X", none, none, some [("temp", st)]⟩

/-- A one-condition machine document used by the C2 witness. -/
def c2doc (st : String) : MachineDoc ℤ String String :=
  ⟨none, some ⟨some "M", some "U", some [("c", c2comp st)]⟩, none⟩

/-- Witness for C2: `merge(merge(null, D1), D2)` with D1 asserting
`Normal` and D2 asserting `Warning` for the same data-item yields
`Warning`. -/
theorem C2_merge_conditions_replace_witness :
    docCondition (merge_machine_data
        (some (merge_machine_data none (c2doc "Normal"))) (c2doc "Warning"))
      "c" "temp" = some "Warning" :=
  @C2_merge_conditions_replace ℤ String String
    (merge_machine_data none (c2doc "Normal")) (c2doc "Warning")
    ⟨some "M", some "U", some [("c", c2comp "Normal")]⟩
    ⟨some "M", some "U", some [("c", c2comp "Warning")]⟩
    [("c", c2comp "Normal")] [("c", c2comp "Warning")]
    (c2comp "Normal") (c2comp "Warning")
    [("temp", "Normal")] [("temp", "Warning")]
    "Normal" "Warning" "c" "temp"
    rfl rfl (by decide) rfl (by decide)
    rfl rfl (by decide) (by decide) rfl (by decide) (by decide)

/-- C3: for every sample or event data-item name present in both the
existing and the incoming document (same component), the merged value is
the existing list followed by the incoming list, each side first coerced
from a scalar to a one-element list; concatenation keeps every element,
so entries repeated across documents all appear. -/
theorem C3_merge_append_concat {α β γ : Type} (ex nd : MachineDoc α β γ)
    (cid n : String) :
    (∀ (edev ndev : Device α β γ) (ecs ncs : List (String × Component α β γ))
       (ecomp ncomp : Component α β γ) (es ns : List (String × LV α)) (evl nvl : LV α),
       ex.device = some edev → edev.components = some ecs →
       getS? ecs cid = some ecomp → ecomp.samples = some es → getS? es n = some evl →
       nd.device = some ndev → ndev.components = some ncs → (ncs.map Prod.fst).Nodup →
       getS? ncs cid = some ncomp → ncomp.samples = some ns → (ns.map Prod.fst).Nodup →
       getS? ns n = some nvl →
       docSamples (merge_machine_data (some ex) nd) cid n
         = some (LV.list (evl.toList ++ nvl.toList))) ∧
    (∀ (edev ndev : Device α β γ) (ecs ncs : List (String × Component α β γ))
       (ecomp ncomp : Component α β γ) (es ns : List (String × LV α)) (evl nvl : LV α),
       ex.device = some edev → edev.components = some ecs →
       getS? ecs cid = some ecomp → ecomp.events = some es → getS? es n = some evl →
       nd.device = some ndev → ndev.components = some ncs → (ncs.map Prod.fst).Nodup →
       getS? ncs cid = some ncomp → ncomp.events = some ns → (ns.map Prod.fst).Nodup →
       getS? ns n = some nvl →
       docEvents (merge_machine_data (some ex) nd) cid n
         = some (LV.list (evl.toList ++ nvl.toList))) := by
  constructor
  · intro edev ndev ecs ncs ecomp ncomp es ns evl nvl h1 h2 h3 h4 h5 h6 h7 h8 h9 h10 h11 h12
    exact (merge_doc_samples_lemma h1 h2 h3 h4 h5 h6 h7 h8 h9 h10 h11 h12).2.2.2.2
  · intro edev ndev ecs ncs ecomp ncomp es ns evl nvl h1 h2 h3 h4 h5 h6 h7 h8 h9 h10 h11 h12
    exact (merge_doc_events_lemma h1 h2 h3 h4 h5 h6 h7 h8 h9 h10 h11 h12).2.2.2.2

/-- The component of the existing C3 witness document: a scalar legacy
sample entry and a list event entry. -/
def c3excomp : Component ℤ String String :=
  ⟨some "Linear", some "X", some [("Xabs", LV.scalar 100)], some [("mode", LV.list [1, 2])], none⟩

/-- The component of the incoming C3 witness document: a list sample entry
and a scalar event entry for the same names. -/
def c3ndcomp : Component ℤ String String :=
  ⟨some "Linear", some "X", some [("Xabs", LV.list [101, 102])], some [("mode", LV.scalar 3)], none⟩

/-- Existing document of the C3 witness. -/
def c3ex : MachineDoc ℤ String String :=
  ⟨none, some ⟨some "M", some "U", some [("c", c3excomp)]⟩, none⟩

/-- Incoming document of the C3 witness. -/
def c3nd : MachineDoc ℤ String String :=
  ⟨none, some ⟨some "M", some "U", some [("c", c3ndcomp)]⟩, none⟩

/-- Witness for C3: scalar existing sample and list incoming sample merge
to `[100, 101, 102]`; list existing event and scalar incoming event merge
to `[1, 2, 3]`. -/
theorem C3_merge_append_concat_witness :
    docSamples (merge_machine_data (some c3ex) c3nd) "c" "Xabs"
      = some (LV.list [100, 101, 102]) ∧
    docEvents (merge_machine_data (some c3ex) c3nd) "c" "mode"
      = some (LV.list [1, 2, 3]) := by
  constructor
  · rw [(C3_merge_append_concat c3ex c3nd "c" "Xabs").1
      ⟨some "M", some "U", some [("c", c3excomp)]⟩
      ⟨some "M", some "U", some [("c", c3ndcomp)]⟩
      [("c", c3excomp)] [("c", c3ndcomp)] c3excomp c3ndcomp
      [("Xabs", LV.scalar 100)] [("Xabs", LV.list [101, 102])]
      (LV.scalar 100) (LV.list [101, 102])
      rfl rfl (by decide) rfl (by decide) rfl rfl (by decide) (by decide) rfl
      (by decide) (by decide)]
    decide
  · rw [(C3_merge_append_concat c3ex c3nd "c" "mode").2
      ⟨some "M", some "U", some [("c", c3excomp)]⟩
      ⟨some "M", some "U", some [("c", c3ndcomp)]⟩
      [("c", c3excomp)] [("c", c3ndcomp)] c3excomp c3ndcomp
      [("mode", LV.list [1, 2])] [("mode", LV.scalar 3)]
      (LV.list [1, 2]) (LV.scalar 3)
      rfl rfl (by decide) rfl (by decide) rfl rfl (by decide) (by decide) rfl
      (by decide) (by decide)]
    decide

/-- A single-sample document carrying `Xabs = [v]`, used by C5. -/
def c5doc (v : ℤ) : MachineDoc ℤ String String :=
  ⟨none, some ⟨some "M", some "U",
    some [("c", ⟨some "Linear", some "X", some [("Xabs", LV.list [v])], none, none⟩)]⟩, none⟩

/-- The first C5 document. -/
def c5D0 : MachineDoc ℤ String String := c5doc 100

/-- The second C5 document. -/
def c5D1 : MachineDoc ℤ String String := c5doc 101

/-- The third C5 document. -/
def c5D2 : MachineDoc ℤ String String := c5doc 102

/-- C5: merging three documents in order appends the three per-name
sample (and event) lists in that order — the same arrays as one ordered
pass over D0, D1, D2; and on concrete documents, merging out of
chronological order (D2 before D1) produces a different array, so
chronological ordering is a caller contract, not an internal guarantee. -/
theorem C5_merge_chain_order :
    (∀ (α β γ : Type) (D0 D1 D2 : MachineDoc α β γ) (cid n : String)
       (dev0 dev1 dev2 : Device α β γ)
       (cs0 cs1 cs2 : List (String × Component α β γ))
       (comp0 comp1 comp2 : Component α β γ)
       (s0 s1 s2 : List (String × LV α)) (l0 l1 l2 : LV α),
       D0.device = some dev0 → dev0.components = some cs0 →
       getS? cs0 cid = some comp0 → comp0.samples = some s0 → getS? s0 n = some l0 →
       D1.device = some dev1 → dev1.components = some cs1 → (cs1.map Prod.fst).Nodup →
       getS? cs1 cid = some comp1 → comp1.samples = some s1 → (s1.map Prod.fst).Nodup →
       getS? s1 n = some l1 →
       D2.device = some dev2 → dev2.components = some cs2 → (cs2.map Prod.fst).Nodup →
       getS? cs2 cid = some comp2 → comp2.samples = some s2 → (s2.map Prod.fst).Nodup →
       getS? s2 n = some l2 →
       docSamples (merge_machine_data (some (merge_machine_data (some D0) D1)) D2) cid n
         = some (LV.list (l0.toList ++ l1.toList ++ l2.toList))) ∧
    (∀ (α β γ : Type) (D0 D1 D2 : MachineDoc α β γ) (cid n : String)
       (dev0 dev1 dev2 : Device α β γ)
       (cs0 cs1 cs2 : List (String × Component α β γ))
       (comp0 comp1 comp2 : Component α β γ)
       (s0 s1 s2 : List (String × LV α)) (l0 l1 l2 : LV α),
       D0.device = some dev0 → dev0.components = some cs0 →
       getS? cs0 cid = some comp0 → comp0.events = some s0 → getS? s0 n = some l0 →
       D1.device = some dev1 → dev1.components = some cs1 → (cs1.map Prod.fst).Nodup →
       getS? cs1 cid = some comp1 → comp1.events = some s1 → (s1.map Prod.fst).Nodup →
       getS? s1 n = some l1 →
       D2.device = some dev2 → dev2.components = some cs2 → (cs2.map Prod.fst).Nodup →
       getS? cs2 cid = some comp2 → comp2.events = some s2 → (s2.map Prod.fst).Nodup →
       getS? s2 n = some l2 →
       docEvents (merge_machine_data (some (merge_machine_data (some D0) D1)) D2) cid n
         = some (LV.list (l0.toList ++ l1.toList ++ l2.toList))) ∧
    docSamples (merge_machine_data
        (some (merge_machine_data (some c5D0) c5D2)) c5D1) "c" "Xabs"
      ≠ docSamples (merge_machine_data
        (some (merge_machine_data (some c5D0) c5D1)) c5D2) "c" "Xabs" := by
  refine ⟨?_, ?_, ?_⟩
  · intro α β γ D0 D1 D2 cid n dev0 dev1 dev2 cs0 cs1 cs2 comp0 comp1 comp2
      s0 s1 s2 l0 l1 l2 h01 h02 h03 h04 h05 h11 h12 h1N h13 h14 h1sN h15
      h21 h22 h2N h23 h24 h2sN h25
    obtain ⟨hdev1, hcomp1, hsmp1, hget1, hdoc1⟩ :=
      merge_doc_samples_lemma h01 h02 h03 h04 h05 h11 h12 h1N h13 h14 h1sN h15
    exact (merge_doc_samples_lemma hdev1 rfl hcomp1 hsmp1 hget1
      h21 h22 h2N h23 h24 h2sN h25).2.2.2.2
  · intro α β γ D0 D1 D2 cid n dev0 dev1 dev2 cs0 cs1 cs2 comp0 comp1 comp2
      s0 s1 s2 l0 l1 l2 h01 h02 h03 h04 h05 h11 h12 h1N h13 h14 h1sN h15
      h21 h22 h2N h23 h24 h2sN h25
    obtain ⟨hdev1, hcomp1, hsmp1, hget1, hdoc1⟩ :=
      merge_doc_events_lemma h01 h02 h03 h04 h05 h11 h12 h1N h13 h14 h1sN h15
    exact (merge_doc_events_lemma hdev1 rfl hcomp1 hsmp1 hget1
      h21 h22 h2N h23 h24 h2sN h25).2.2.2.2
  · decide

/-- The single component of a C5 document. -/
def c5comp (v : ℤ) : Component ℤ String String :=
  ⟨some "Linear", some "X", some [("Xabs", LV.list [v])], none, none⟩

/-- Witness for C5: folding the three concrete documents in order yields
the sample array `[100, 101, 102]`. -/
theorem C5_merge_chain_order_witness :
    docSamples (merge_machine_data
        (some (merge_machine_data (some c5D0) c5D1)) c5D2) "c" "Xabs"
      = some (LV.list [100, 101, 102]) := by
  rw [C5_merge_chain_order.1 ℤ String String c5D0 c5D1 c5D2 "c" "Xabs"
      ⟨some "M", some "U", some [("c", c5comp 100)]⟩
      ⟨some "M", some "U", some [("c", c5comp 101)]⟩
      ⟨some "M", some "U", some [("c", c5comp 102)]⟩
      [("c", c5comp 100)] [("c", c5comp 101)] [("c", c5comp 102)]
      (c5comp 100) (c5comp 101) (c5comp 102)
      [("Xabs", LV.list [100])] [("Xabs", LV.list [101])] [("Xabs", LV.list [102])]
      (LV.list [100]) (LV.list [101]) (LV.list [102])
      rfl rfl (by decide) rfl (by decide)
      rfl rfl (by decide) (by decide) rfl (by decide) (by decide)
      rfl rfl (by decide) (by decide) rfl (by decide) (by decide)]
  decide

/-- C9: in the loader's `main`, when a load step raises after triggers
were suspended (`SET session_replication_role = replica`), the executed
trace contains the suspension but NOT the restoring
`SET session_replication_role = DEFAULT` — the run rolls back, closes and
re-raises without restoring; only the non-failing run restores.  This
evaluates the model at the failing input of the claim. -/
theorem C9_trigger_restore_gap :
    (load_data_efficient_main ⟨false, false, true⟩ (some .loadSamples)).1.contains
        Stmt.setReplica = true ∧
    (load_data_efficient_main ⟨false, false, true⟩ (some .loadSamples)).1.contains
        Stmt.setDefault = false ∧
    (load_data_efficient_main ⟨false, false, true⟩ (some .loadSamples)).2 = true ∧
    (load_data_efficient_main ⟨false, false, true⟩ none).1.contains
        Stmt.setDefault = true := by
  decide

/-- C7 (amended): the parser probes its ordered candidate patterns —
no-namespace, wildcard-namespace, exact-namespace — and accepts the first
that resolves; when NONE resolves it does not fail: the root element
itself is taken as the device stream and the conversion still produces a
`header`/`device` document (no `StructureError` exists in the code; a
parsed tree never aborts the conversion). -/
theorem C7_probe_and_fallback (root : XElem) :
    (∀ e, findDesc (patNoNs "DeviceStream") root = some e →
      locate_device_stream root = some e) ∧
    (findDesc (patNoNs "DeviceStream") root = none →
      ∀ e, findDesc (patWild "DeviceStream") root = some e →
        locate_device_stream root = some e) ∧
    (findDesc (patNoNs "DeviceStream") root = none →
      findDesc (patWild "DeviceStream") root = none →
      locate_device_stream root = findDesc (patExact mtcNs "DeviceStream") root) ∧
    (locate_device_stream root = none →
      convert_xml_to_json_deduplicated root = convert_with_device root root) ∧
    (∃ hdr dev, convert_xml_to_json_deduplicated root =
      .vdict [((.vstr "header" : PyObj), hdr), ((.vstr "device" : PyObj), dev)]) := by
  refine ⟨?_, ?_, ?_, ?_, ?_⟩
  · intro e he
    simp [locate_device_stream, he]
  · intro h1 e he
    simp [locate_device_stream, h1, he]
  · intro h1 h2
    simp [locate_device_stream, h1, h2]
  · intro h
    simp [convert_xml_to_json_deduplicated, h]
  · exact ⟨_, _, rfl⟩

/-- A parsed document with a header but no device-stream container at
all (and nothing component-like). -/
def c7ex : XElem :=
  .mk "MTConnectStreams" [] none [.mk "Header" [("sender", "M1")] none []]

/-- A parsed document whose `DeviceStream` resolves with the plain
(no-namespace) pattern. -/
def c7w : XElem :=
  .mk "MTConnectStreams" [] none
    [.mk "DeviceStream" [("name", "VTC"), ("uuid", "U1")] none []]

/-- C7 counterexample: on a well-formed document with no locatable
device-stream container the conversion does not fail at all — the claim
requires a `StructureError` exactly in this case — but produces a full
document from the root element. -/
theorem C7_counterexample :
    (locate_device_stream c7ex).isNone = true ∧
    convert_xml_to_json_deduplicated c7ex =
      .vdict [((.vstr "header" : PyObj), .vdict [((.vstr "sender" : PyObj), .vstr "M1")]),
        ((.vstr "device" : PyObj),
          .vdict [((.vstr "name" : PyObj), .vstr "Unknown"),
            ((.vstr "uuid" : PyObj), .vstr "Unknown"),
            ((.vstr "components" : PyObj), .vdict [])])] := by
  constructor
  · decide
  · decide

/-- Witness for the amended C7: on `c7w` the first pattern resolves and
wins; on `c7ex` no pattern resolves and the conversion falls back to the
root element. -/
theorem C7_probe_and_fallback_witness :
    locate_device_stream c7w =
      some (.mk "DeviceStream" [("name", "VTC"), ("uuid", "U1")] none []) ∧
    convert_xml_to_json_deduplicated c7ex = convert_with_device c7ex c7ex :=
  ⟨(C7_probe_and_fallback c7w).1
      (.mk "DeviceStream" [("name", "VTC"), ("uuid", "U1")] none []) rfl,
   (C7_probe_and_fallback c7ex).2.2.2.1
      (Option.isNone_iff_eq_none.mp (by decide))⟩
